import Mathlib

/-!
Netplay relay server: a shallow embedding of `NetplayInputPlugin/server.cpp`.

The server keeps a registry of sessions (`std::map<uint32_t, session_ptr>`), the four
netplay controller slots, the input lag and the `started` flag.  Every operation of
`server.cpp` is embedded as a function from the server state to the new server state
together with the list of frames it hands to the sessions, in the order of the calls.

Conventions
* an `std::array<T, 4>` is a function `Fin 4 → T`;
* the registry is the list of its sessions in iteration order; the key of an entry is
  the id of its session (`sessions[s->get_id()] = s` is the only insertion);
* `uint8_t`, `uint32_t` values are naturals, `int8_t`, `int32_t`, `int` values are
  integers; conversions between the types and the 32-bit range of signed sums and products
  are written out where they occur (`to_u8`, `to_u32`, `wrap32`);
* a frame sent to a session is recorded as the pair (id of the recipient, frame).
-/

namespace Netplay

/-! ## Data model -/

/-- One controller: `plugin`, `present`, `raw_data`. -/
structure controller where
  plugin : Nat
  present : Bool
  raw_data : Nat
deriving DecidableEq, Repr

/-- Modelled from the spec: the value `controller()` that `netplay_controllers.fill` writes.
The struct is declared in a header that is not among the sources; the spec calls the cleared
slot the absent marker. -/
def controller.absent : controller :=
  { plugin := 0, present := false, raw_data := 0 }

/-- The indices `0, 1, 2, 3` of a four-element array, in the order of a `for` loop. -/
def ports : List (Fin 4) := [0, 1, 2, 3]

/-- Array write `a[i] = v` on a four-element array (every write of `server.cpp` has
`i < 4`; an index outside the array writes nothing here). -/
def set4 {α : Type} (a : Fin 4 → α) (i : Nat) (v : α) : Fin 4 → α :=
  fun j => if j.val = i then v else a j

/-- The per-session translation between local ports and netplay ports; `-1` is unmapped. -/
structure controller_map where
  local_to_netplay : Fin 4 → Int
  netplay_to_local : Fin 4 → Int

/-- Modelled from the spec: `controller_map::insert`, whose header is not among the sources.
It sets `local_to_netplay[local] = netplay` and, if `netplay ≥ 0`,
`netplay_to_local[netplay] = local`. -/
def controller_map.insert (m : controller_map) (local_port : Fin 4) (netplay : Int) :
    controller_map :=
  { local_to_netplay := set4 m.local_to_netplay local_port.val netplay
    netplay_to_local :=
      if 0 ≤ netplay then set4 m.netplay_to_local netplay.toNat (local_port.val : Int)
      else m.netplay_to_local }

/-- The part of a session the server reads and writes.  The class is declared in `session.h`,
which is not among the sources: `id`, `name`, `controllers`, `is_player`, `fps`,
`minimum_latency` and `latency` are the values its getters return (32-bit signed for the
last three), `my_controller_map` is its public member, and `closed` records a call of
`session::close`. -/
structure session where
  id : Nat
  name : String
  controllers : Fin 4 → controller
  my_controller_map : controller_map
  is_player : Bool
  fps : Int
  minimum_latency : Int
  latency : Int
  closed : Bool

/-- Modelled from the spec: the frames the server sends, one constructor for each opcode
`server.cpp` emits.  The `send_*` methods of `session`, which are not among the sources, put
the frame of their name on the connection of the session; a `CONTROLLERS` frame and a
`NETPLAY_CONTROLLERS` frame carry their arrays as the sequence of the four entries. -/
inductive packet where
  | JOIN (id : Nat) (name : String)
  | PING (timestamp : Nat)
  | LATENCY (table : List (Nat × Int))
  | NAME (id : Nat) (name : String)
  | MESSAGE (sender : Int) (text : String)
  | LAG (frames : Nat)
  | CONTROLLERS (id : Nat) (controllers : List controller) (local_to_netplay : List Int)
  | NETPLAY_CONTROLLERS (controllers : List controller)
  | START
  | INPUT (port : Nat) (input : Nat)
  | QUIT (id : Nat)
deriving DecidableEq, Repr

/-- The server state. -/
structure server where
  sessions : List session
  next_id : Nat
  netplay_controllers : Fin 4 → controller
  lag : Nat
  autolag : Bool
  started : Bool
  acceptor_open : Bool
  timer_cancelled : Bool

/-- The frames an operation sends, in order, each with the id of its recipient. -/
abbrev outbox := List (Nat × packet)

/-- What the session with id `r` receives from an outbox, in order. -/
def packets_to (out : outbox) (r : Nat) : List packet :=
  (out.filter (fun e => e.1 = r)).map (fun e => e.2)

/-! ## 32-bit arithmetic -/

/-- The value of an `int32_t` (or 32-bit `int`) computation whose exact result is `x`: the
result is reduced to the two's complement range, which is what the multiplication and
addition instructions of the usual targets deliver when a signed operation overflows. -/
def wrap32 (x : Int) : Int :=
  (x + 2147483648) % 4294967296 - 2147483648

/-- Conversion of an `int32_t` to `uint32_t`, as in `it->first != id` and `sessions[id]`. -/
def to_u32 (x : Int) : Nat :=
  (x % 4294967296).toNat

/-- Conversion of an `int` to `uint8_t`. -/
def to_u8 (x : Int) : Nat :=
  (x % 256).toNat

/-- The value of `(int)ceil(p / 1000.0)` for a 32-bit `int` `p`, as an integer ceiling.  The
conversion of `p` to `double` is exact, the rounding error of the division is below `2^-32`,
and a quotient `p / 1000` that is not an integer is at least `1/1000` away from the integers,
so the rounded quotient has the ceiling of the exact one (`ceil_div_1000_eq`). -/
def ceil_div_1000 (p : Int) : Int :=
  -((-p) / 1000)

/-! ## Operations of `server.cpp` -/

/-- The function `server::close`: the acceptor is closed, the timer cancelled and
`session::close` called on every session of the registry. -/
def close (st : server) : server :=
  { st with
    acceptor_open := false
    timer_cancelled := true
    sessions := st.sessions.map (fun s => { s with closed := true }) }

/-- The function `server::player_count`. -/
def player_count (st : server) : Nat :=
  ports.foldl (fun count i => if (st.netplay_controllers i).present then count + 1 else count) 0

/-- One iteration of the loop of `server::get_total_latency`, on the pair
`(max_latency, second_max_latency)`. -/
def latency_step (acc : Int × Int) (s : session) : Int × Int :=
  if s.is_player then
    let second := if s.minimum_latency > acc.2 then s.minimum_latency else acc.2
    if second > acc.1 then (second, acc.1) else (acc.1, second)
  else acc

/-- The function `server::get_total_latency`; the sum is an `int32_t` addition. -/
def get_total_latency (st : server) : Int :=
  let r := st.sessions.foldl latency_step (-1, -1)
  if r.2 ≥ 0 then wrap32 (r.1 + r.2) else -1

/-- The function `server::get_fps`: the frame rate of the first player in iteration order,
`-1` without a player. -/
def get_fps (st : server) : Int :=
  match st.sessions.find? (fun s => s.is_player) with
  | some s => s.fps
  | none => -1

/-- The name `send_lag` puts in front of its notice: `"The server"` for `id == -1`, else
`sessions[id]->get_name()`, which dereferences a null pointer when no such session is
registered. -/
def lag_sender (st : server) (id : Int) : Option String :=
  if id = -1 then some "The server"
  else (st.sessions.find? (fun s => s.id = to_u32 id)).map (fun s => s.name)

/-- The notice text of `server::send_lag`. -/
def lag_message (sender : String) (lag : Nat) (fps : Int) : String :=
  let message := sender ++ " set the lag to " ++ toString lag
  if fps > 0 then message ++ " (" ++ toString (Int.tdiv ((lag : Int) * 1000) fps) ++ " ms)"
  else message

/-- The function `server::send_lag`; `lag` is the `uint8_t` argument.  The result is `none`
when the name lookup dereferences a null pointer. -/
def send_lag (st : server) (id : Int) (lag : Nat) : Option (server × outbox) :=
  let st1 := { st with lag := lag }
  match lag_sender st1 id with
  | none => none
  | some sender =>
    let message := lag_message sender lag (get_fps st1)
    some (st1, st1.sessions.flatMap (fun it =>
      if it.id ≠ to_u32 id then
        [(it.id, packet.LAG lag), (it.id, packet.MESSAGE (-1) message)]
      else []))

/-- The function `server::auto_adjust_lag`.  The product `latency * fps` is an `int`
multiplication, and the `int` arguments `lag - 1`, `lag + 1` are converted to the `uint8_t`
parameter of `send_lag`. -/
def auto_adjust_lag (st : server) : Option (server × outbox) :=
  let fps := get_fps st
  if fps ≤ 0 then some (st, [])
  else
    let latency := get_total_latency st
    if latency < 0 then some (st, [])
    else
      let ideal_lag := min (ceil_div_1000 (wrap32 (latency * fps))) 255
      if ideal_lag < (st.lag : Int) then send_lag st (-1) (to_u8 ((st.lag : Int) - 1))
      else if ideal_lag > (st.lag : Int) then send_lag st (-1) (to_u8 ((st.lag : Int) + 1))
      else some (st, [])

/-- The function `server::on_session_quit`, for a session with id `id`: nothing when the id
is not registered; else `QUIT(id)` to every session of the registry, then `close()` when the
registered session is a player and the game has started, and `sessions.erase(id)`
otherwise. -/
def on_session_quit (st : server) (id : Nat) : server × outbox :=
  match st.sessions.find? (fun s => s.id = id) with
  | none => (st, [])
  | some s =>
    let out : outbox := st.sessions.map (fun it => (it.id, packet.QUIT id))
    if s.is_player && st.started then (close st, out)
    else ({ st with sessions := st.sessions.filter (fun e => e.id ≠ id) }, out)

/-- The function `server::send_input`; `id` is a `uint32_t`, `port` a `uint8_t` and `input`
the input word. -/
def send_input (st : server) (id : Nat) (port : Nat) (input : Nat) : server × outbox :=
  (st, st.sessions.flatMap (fun it =>
    if it.id ≠ id then [(it.id, packet.INPUT port input)] else []))

/-- The state of the allocation loops of `server::update_controllers`. -/
structure alloc where
  netplay_controllers : Fin 4 → controller
  netplay_port : Nat

/-- The body of the inner loop of `server::update_controllers` for one local port.  The
`uint8_t` counter `netplay_port` is incremented only below four, so it never wraps. -/
def alloc_local (local_controllers : Fin 4 → controller) (a : alloc × controller_map)
    (local_port : Fin 4) : alloc × controller_map :=
  if (local_controllers local_port).present && decide (a.1.netplay_port < 4) then
    ({ netplay_controllers :=
         set4 a.1.netplay_controllers a.1.netplay_port (local_controllers local_port)
       netplay_port := a.1.netplay_port + 1 },
     a.2.insert local_port (a.1.netplay_port : Int))
  else (a.1, a.2.insert local_port (-1))

/-- The inner loop of `server::update_controllers` for one session. -/
def alloc_session (a : alloc) (s : session) : alloc × session :=
  let r := ports.foldl (alloc_local s.controllers) (a, s.my_controller_map)
  (r.1, { s with my_controller_map := r.2 })

/-- The outer loop of `server::update_controllers` over the registry. -/
def alloc_sessions : alloc → List session → alloc × List session
  | a, [] => (a, [])
  | a, s :: rest =>
    let r := alloc_session a s
    let q := alloc_sessions r.1 rest
    (q.1, r.2 :: q.2)

/-- The `CONTROLLERS` frame `server::update_controllers` builds for one session. -/
def controllers_packet (s : session) : packet :=
  packet.CONTROLLERS s.id (ports.map s.controllers)
    (ports.map s.my_controller_map.local_to_netplay)

/-- The function `server::update_controllers`. -/
def update_controllers (st : server) : server × outbox :=
  let r := alloc_sessions
    { netplay_controllers := fun _ => controller.absent, netplay_port := 0 } st.sessions
  let st1 := { st with sessions := r.2, netplay_controllers := r.1.netplay_controllers }
  (st1, st1.sessions.flatMap (fun it =>
    (it.id, packet.NETPLAY_CONTROLLERS (ports.map st1.netplay_controllers)) ::
      st1.sessions.map (fun jt => (jt.id, controllers_packet it))))

/-! ## Counting present controllers -/

/-- The number of present local controllers of a session. -/
def present_count (s : session) : Nat :=
  ports.countP (fun l => (s.controllers l).present)

/-- The number of present local controllers of a session at ports lower than `l`. -/
def present_below (s : session) (l : Fin 4) : Nat :=
  (ports.filter (fun k => decide (k < l))).countP (fun k => (s.controllers k).present)

/-- The number of present local controllers of all sessions of a list. -/
def total_present (ss : List session) : Nat :=
  (ss.map present_count).sum

/-- The rank of local port `l` of the session `s` at position `i` of the registry: the number
of present local controllers enumerated before it, sessions in iteration order and, within
a session, ports in increasing order. -/
def rank (ss : List session) (i : Nat) (s : session) (l : Fin 4) : Nat :=
  total_present (ss.take i) + present_below s l

/-- The netplay port that allocation by rank gives to local port `l` of the session `s` at
position `i`: its rank if the controller is present and the rank is below four, else `-1`. -/
def assigned (ss : List session) (i : Nat) (s : session) (l : Fin 4) : Int :=
  if (s.controllers l).present = true ∧ rank ss i s l < 4 then (rank ss i s l : Int) else -1

/-! ## Scenarios -/

/-- A controller layout with one controller, at local port 0. -/
def one_controller (c : controller) : Fin 4 → controller :=
  fun l => if l.val = 0 then c else controller.absent

/-- A controller map with every entry unmapped. -/
def unmapped : controller_map :=
  { local_to_netplay := fun _ => -1, netplay_to_local := fun _ => -1 }

/-- A player session with one controller at local port 0. -/
def player (id : Nat) (name : String) (c : controller) (fps minimum_latency : Int) : session :=
  { id := id, name := name, controllers := one_controller c, my_controller_map := unmapped
    is_player := true, fps := fps, minimum_latency := minimum_latency
    latency := minimum_latency, closed := false }

/-- Session A of the scenarios: id 0, 60 fps, 50 ms. -/
def session_A : session := player 0 "A" { plugin := 2, present := true, raw_data := 5 } 60 50

/-- Session B of the scenarios: id 1, 60 fps, 30 ms. -/
def session_B : session := player 1 "B" { plugin := 3, present := true, raw_data := 7 } 60 30

/-- Session C of the scenarios: id 2, 60 fps, 40 ms. -/
def session_C : session := player 2 "C" { plugin := 4, present := true, raw_data := 9 } 60 40

/-- A server in the lobby with the given registry, before any allocation. -/
def lobby (ss : List session) : server :=
  { sessions := ss, next_id := ss.length, netplay_controllers := fun _ => controller.absent
    lag := 0, autolag := true, started := false, acceptor_open := true
    timer_cancelled := false }

/-- The lobby after A and B joined. -/
def lobby_AB : server := (update_controllers (lobby [session_A, session_B])).1

/-- The lobby after A, B and C joined. -/
def lobby_ABC : server := (update_controllers (lobby [session_A, session_B, session_C])).1

/-- The lobby of two players who report 1100000000 frames per second and have a minimum
latency of 1 ms each. -/
def overflow_lobby : server :=
  lobby [player 0 "A" { plugin := 2, present := true, raw_data := 5 } 1100000000 1,
         player 1 "B" { plugin := 3, present := true, raw_data := 7 } 1100000000 1]

/-- The lobby of two players with a minimum latency of 1073741824 ms each. -/
def slow_lobby : server :=
  lobby [player 0 "A" { plugin := 2, present := true, raw_data := 5 } 60 1073741824,
         player 1 "B" { plugin := 3, present := true, raw_data := 7 } 60 1073741824]

/-! ## Frames of one allocation -/

/-- Whether a frame is a `CONTROLLERS` frame. -/
def is_controllers : packet → Bool
  | packet.CONTROLLERS _ _ _ => true
  | _ => false

/-- Whether a frame is a `NETPLAY_CONTROLLERS` frame. -/
def is_netplay_controllers : packet → Bool
  | packet.NETPLAY_CONTROLLERS _ => true
  | _ => false

/-- No `CONTROLLERS` frame of the list stands in front of its first `NETPLAY_CONTROLLERS`
frame. -/
def netplay_controllers_first (ps : List packet) : Bool :=
  (ps.takeWhile (fun p => !is_netplay_controllers p)).all (fun p => !is_controllers p)

/-! ## Total latency and lag control, as the specification words them -/

/-- The minimum latencies of the sessions that are players. -/
def player_latencies (ss : List session) : List Int :=
  (ss.filter (fun s => s.is_player)).map (fun s => s.minimum_latency)

/-- A list of latencies sorted from the largest to the smallest. -/
def descending (L : List Int) : List Int :=
  L.insertionSort (fun a b => b ≤ a)

/-- The total latency in the words of the specification: the sum of the largest and the
second-largest minimum latency of the players, counted with multiplicity, when at least two
players have a non-negative minimum latency, and `-1` otherwise. -/
def spec_total_latency (ss : List session) : Int :=
  if 2 ≤ ((player_latencies ss).filter (fun x => decide (0 ≤ x))).length then
    (descending (player_latencies ss)).getD 0 0 + (descending (player_latencies ss)).getD 1 0
  else -1

/-- Repeated ticks of the automatic lag control: `k` calls of `auto_adjust_lag`. -/
def auto_adjust_lag_ticks : Nat → server → Option server
  | 0, st => some st
  | k + 1, st =>
    match auto_adjust_lag st with
    | some r => auto_adjust_lag_ticks k r.1
    | none => none

/-- The ideal lag in the words of the specification:
`min(ceil(total_latency * fps / 1000), 255)`. -/
def ideal_lag (total_latency fps : Int) : Int :=
  min ⌈((total_latency * fps : Int) : ℚ) / 1000⌉ 255

/-- The lag `lag` moved `min(k, |ideal - lag|)` frames towards `ideal`. -/
def move_towards (lag ideal : Int) (k : Nat) : Int :=
  if lag ≤ ideal then lag + min (k : Int) (ideal - lag) else lag - min (k : Int) (lag - ideal)

/-! ## Further operations of `server.cpp` -/

/-- The function `server::send_message`; `id` is an `int32_t`, and `it->first != id` compares
it with the `uint32_t` key after conversion to `uint32_t`. -/
def send_message (st : server) (id : Int) (message : String) : server × outbox :=
  (st, st.sessions.flatMap (fun it =>
    if it.id ≠ to_u32 id then [(it.id, packet.MESSAGE id message)] else []))

/-- The function `server::send_name`. -/
def send_name (st : server) (id : Nat) (name : String) : server × outbox :=
  (st, st.sessions.map (fun it => (it.id, packet.NAME id name)))

/-- The function `server::send_latencies`. -/
def send_latencies (st : server) : server × outbox :=
  (st, st.sessions.map (fun it =>
    (it.id, packet.LATENCY (st.sessions.map (fun e => (e.id, e.latency))))))

/-- The function `server::send_start_game`. -/
def send_start_game (st : server) : server × outbox :=
  if st.started then (st, [])
  else
    ({ st with started := true, acceptor_open := false },
     st.sessions.map (fun it => (it.id, packet.START)))

/-- The assignment `sessions[s->get_id()] = s`.  The container is declared in `server.h`,
which is not among the sources: an entry with the key of `s` is replaced where it stands, and
a new entry is placed where the order of the container puts it, which is taken as the
parameter `pos`, its position in iteration order (the place the key gives it in a
`std::map`, the end in an insertion-ordered map). -/
def registry_insert (sessions : List session) (s : session) (pos : Nat) : List session :=
  if sessions.any (fun e => decide (e.id = s.id)) then
    sessions.map (fun e => if e.id = s.id then s else e)
  else sessions.take pos ++ s :: sessions.drop pos

/-- The function `server::on_session_joined` for the session `s`; `now` is the value of
`time()` and `pos` the place of the new entry in the registry. -/
def on_session_joined (st : server) (s : session) (now : Nat) (pos : Nat) : server × outbox :=
  let out1 : outbox := st.sessions.map (fun it => (it.id, packet.JOIN s.id s.name))
  let st1 := { st with sessions := registry_insert st.sessions s pos }
  let out2 : outbox := st1.sessions.map (fun it => (s.id, packet.JOIN it.id it.name))
  let out3 : outbox :=
    [(s.id, packet.PING now), (s.id, packet.LAG st1.lag),
     (s.id, packet.MESSAGE (-1) ("The server set the lag to " ++ toString st1.lag))]
  let r := update_controllers st1
  (r.1, out1 ++ out2 ++ out3 ++ r.2)

/-- The function `server::accept`: a session object with the id `next_id++` is created and
an asynchronous accept started for it; the session enters the registry only through
`on_session_joined`. -/
def accept (st : server) : server × outbox :=
  ({ st with next_id := (st.next_id + 1) % 4294967296 }, [])

/-- The function `server::on_tick`; `error` is whether the timer reports an error and
`time k` the value of `time()` in the `k`-th iteration of the ping loop. -/
def on_tick (st : server) (error : Bool) (time : Nat → Nat) : Option (server × outbox) :=
  if error then some (st, [])
  else
    let out1 := (send_latencies st).2
    let out2 : outbox := (st.sessions.zip (List.range st.sessions.length)).map
      (fun e => (e.1.id, packet.PING (time e.2)))
    if st.autolag then
      match auto_adjust_lag st with
      | some r => some (r.1, out1 ++ out2 ++ r.2)
      | none => none
    else some (st, out1 ++ out2)

/-- The notice of a lag change in the words of the specification: `"<name> set the lag to
<v>"`, followed by `" (<ms> ms)"` with `ms = v * 1000 / fps` when the frame rate is known
and positive. -/
def lag_notice (name : String) (v : Nat) (fps : Int) : String :=
  name ++ " set the lag to " ++ toString v ++
    (if 0 < fps then " (" ++ toString ((v : Int) * 1000 / fps) ++ " ms)" else "")

/-- The lobby of A and B after one of them sent `START`. -/
def started_AB : server := (send_start_game lobby_AB).1

/-- A registry that holds A and a session with the largest `uint32_t` id. -/
def last_id_lobby : server :=
  lobby [session_A, player 4294967295 "Z" { plugin := 3, present := true, raw_data := 7 } 60 30]

/-! ## Further scenarios -/

/-- An observer: a session without controllers that is not a player. -/
def session_O : session :=
  { id := 3, name := "O", controllers := fun _ => controller.absent
    my_controller_map := unmapped, is_player := false, fps := 60, minimum_latency := 20
    latency := 20, closed := false }

/-- The started game of A and B with the observer O. -/
def started_ABO : server :=
  (send_start_game (update_controllers (lobby [session_A, session_B, session_O])).1).1


/-- The session `b` is the session `a` up to the contents of its controller map. -/
def same_session (a b : session) : Prop :=
  ∃ m : controller_map, b = { a with my_controller_map := m }

/-- A controller map left over from an earlier allocation in which local port 0 had
netplay port 2. -/
def stale_map : controller_map :=
  { local_to_netplay := fun l => if l.val = 0 then 2 else -1
    netplay_to_local := fun n => if n.val = 2 then 0 else -1 }

/-- Session A with the controller map of an earlier allocation. -/
def session_A_stale : session := { session_A with my_controller_map := stale_map }


/-- The server after its constructor and `open`: no session, nothing started. -/
def initial : server := lobby []

/-- The run in which three connections are accepted, A and B join, the game is started and
the third session C, accepted before the start, completes its handshake afterwards; the
result is the state right before `on_session_joined` for C. -/
def started_before_late_join : server :=
  (send_start_game
    (on_session_joined
      (on_session_joined (accept (accept (accept initial).1).1).1 session_A 10 0).1
      session_B 20 1).1).1


/-- The ids of the registered sessions, in iteration order. -/
def registry_ids (st : server) : List Nat :=
  st.sessions.map (fun e => e.id)

/-! ## The allocation loops -/

theorem set4_apply {α : Type} (a : Fin 4 → α) (i : Nat) (v : α) (j : Fin 4) :
    set4 a i v j = if j.val = i then v else a j := rfl

theorem alloc_local_eq (cs : Fin 4 → controller) (a : alloc × controller_map) (l : Fin 4) :
    alloc_local cs a l =
      if (cs l).present = true ∧ a.1.netplay_port < 4 then
        ({ netplay_controllers := set4 a.1.netplay_controllers a.1.netplay_port (cs l)
           netplay_port := a.1.netplay_port + 1 },
         a.2.insert l (a.1.netplay_port : Int))
      else (a.1, a.2.insert l (-1)) := by
  unfold alloc_local
  by_cases h1 : (cs l).present = true <;> by_cases h2 : a.1.netplay_port < 4 <;> simp [h1, h2]

/-- The netplay port never decreases and never exceeds four. -/
theorem alloc_fold_port (cs : Fin 4 → controller) (ls : List (Fin 4)) :
    ∀ x : alloc × controller_map,
      x.1.netplay_port ≤ (ls.foldl (alloc_local cs) x).1.netplay_port ∧
      (x.1.netplay_port ≤ 4 → (ls.foldl (alloc_local cs) x).1.netplay_port ≤ 4) := by
  induction ls with
  | nil => intro x; simp
  | cons l ls ih =>
    intro x
    rw [List.foldl_cons]
    have h := ih (alloc_local cs x l)
    rw [alloc_local_eq] at h ⊢
    split_ifs at h ⊢ with hc
    · simp only at h
      exact ⟨by omega, fun _ => h.2 (by omega)⟩
    · exact h

/-- Slots below the starting port and slots from the final port on are not written. -/
theorem alloc_fold_frame (cs : Fin 4 → controller) (ls : List (Fin 4)) :
    ∀ (x : alloc × controller_map) (n : Fin 4),
      (n.val < x.1.netplay_port ∨ (ls.foldl (alloc_local cs) x).1.netplay_port ≤ n.val) →
      (ls.foldl (alloc_local cs) x).1.netplay_controllers n = x.1.netplay_controllers n := by
  induction ls with
  | nil => intro x n _; rfl
  | cons l ls ih =>
    intro x n hn
    rw [List.foldl_cons] at hn ⊢
    have hp := (alloc_fold_port cs ls (alloc_local cs x l)).1
    have h := ih (alloc_local cs x l) n
    rw [alloc_local_eq] at h hn hp ⊢
    split_ifs at h hn hp ⊢ with hc
    · simp only at h hn hp
      rw [h (by omega), set4_apply, if_neg (by omega)]
    · exact h hn

/-- Slots below the port are present. -/
theorem alloc_fold_present (cs : Fin 4 → controller) (ls : List (Fin 4)) :
    ∀ (x : alloc × controller_map),
      (∀ n : Fin 4, n.val < x.1.netplay_port → (x.1.netplay_controllers n).present = true) →
      ∀ n : Fin 4, n.val < (ls.foldl (alloc_local cs) x).1.netplay_port →
        ((ls.foldl (alloc_local cs) x).1.netplay_controllers n).present = true := by
  induction ls with
  | nil => intro x hx n hn; exact hx n hn
  | cons l ls ih =>
    intro x hx
    rw [List.foldl_cons]
    apply ih
    rw [alloc_local_eq]
    split_ifs with hc
    · intro n hn
      simp only at hn ⊢
      rw [set4_apply]
      split_ifs with he
      · exact hc.1
      · exact hx n (by omega)
    · exact hx

theorem insert_local_to_netplay (m : controller_map) (l : Fin 4) (v : Int) (k : Fin 4) :
    (m.insert l v).local_to_netplay k = if k = l then v else m.local_to_netplay k := by
  simp [controller_map.insert, set4_apply, Fin.ext_iff]

/-- A local port outside the list keeps its entry. -/
theorem alloc_fold_map_of_not_mem (cs : Fin 4 → controller) (ls : List (Fin 4)) :
    ∀ (x : alloc × controller_map) (l : Fin 4), l ∉ ls →
      (ls.foldl (alloc_local cs) x).2.local_to_netplay l = x.2.local_to_netplay l := by
  induction ls with
  | nil => intro x l _; rfl
  | cons k ls ih =>
    intro x l hl
    rw [List.foldl_cons, ih _ l (fun h => hl (List.mem_cons_of_mem _ h)), alloc_local_eq]
    have hne : l ≠ k := fun h => hl (h ▸ List.mem_cons_self _ _)
    split_ifs <;> simp [insert_local_to_netplay, hne]

/-- The entry written for a local port of the list is either `-1` or the number of a slot
that holds the controller of that port. -/
theorem alloc_fold_map_slot (cs : Fin 4 → controller) (ls : List (Fin 4)) :
    ∀ (x : alloc × controller_map), ls.Nodup → ∀ l ∈ ls,
      0 ≤ (ls.foldl (alloc_local cs) x).2.local_to_netplay l →
      ∃ n : Fin 4, (n.val : Int) = (ls.foldl (alloc_local cs) x).2.local_to_netplay l ∧
        x.1.netplay_port ≤ n.val ∧ n.val < (ls.foldl (alloc_local cs) x).1.netplay_port ∧
        (ls.foldl (alloc_local cs) x).1.netplay_controllers n = cs l ∧
        (cs l).present = true := by
  induction ls with
  | nil => intro x _ l hl; simp at hl
  | cons k ls ih =>
    intro x hnd l hl hv
    rw [List.nodup_cons] at hnd
    rw [List.foldl_cons] at hv ⊢
    rcases List.mem_cons.1 hl with rfl | hmem
    · rw [alloc_fold_map_of_not_mem cs ls _ l hnd.1] at hv ⊢
      have hp := (alloc_fold_port cs ls (alloc_local cs x l)).1
      have hf := alloc_fold_frame cs ls (alloc_local cs x l)
      rw [alloc_local_eq] at hv hp hf ⊢
      split_ifs at hv hp hf ⊢ with hc
      · simp only [insert_local_to_netplay, if_true] at hv hp hf ⊢
        refine ⟨⟨x.1.netplay_port, hc.2⟩, rfl, le_refl _, by simpa using hp, ?_, hc.1⟩
        rw [hf _ (Or.inl (by simp))]
        simp [set4_apply]
      · simp [insert_local_to_netplay] at hv
    · obtain ⟨n, h1, h2, h3, h4, h5⟩ := ih (alloc_local cs x k) hnd.2 l hmem hv
      refine ⟨n, h1, ?_, h3, h4, h5⟩
      rw [alloc_local_eq] at h2
      split_ifs at h2 with hc
      · simp only at h2; omega
      · exact h2

/-- The port after the loop: four, or the start plus the number of present controllers. -/
theorem alloc_fold_port_eq (cs : Fin 4 → controller) (ls : List (Fin 4)) :
    ∀ (x : alloc × controller_map), x.1.netplay_port ≤ 4 →
      (ls.foldl (alloc_local cs) x).1.netplay_port =
        min 4 (x.1.netplay_port + ls.countP (fun l => (cs l).present)) := by
  induction ls with
  | nil => intro x hx; simp; omega
  | cons k ls ih =>
    intro x hx
    rw [List.foldl_cons, List.countP_cons]
    have h := ih (alloc_local cs x k)
    rw [alloc_local_eq] at h ⊢
    split_ifs at h ⊢ with hc hk hk
    · simp only at h; rw [h (by omega)]; omega
    · exact absurd hc.1 hk
    · simp only at h; rw [h hx]; 
      have : x.1.netplay_port = 4 := by
        by_contra hne
        exact hc ⟨hk, by omega⟩
      omega
    · simp only at h; rw [h hx]; simp

/-- The entry written for a local port of the list, by the number of present controllers
in front of it. -/
theorem alloc_fold_map_rank (cs : Fin 4 → controller) (ls : List (Fin 4)) :
    ∀ (x : alloc × controller_map), ls.Nodup → ∀ l ∈ ls,
      (ls.foldl (alloc_local cs) x).2.local_to_netplay l =
        if (cs l).present = true ∧
            x.1.netplay_port + (ls.takeWhile (fun k => k ≠ l)).countP (fun k => (cs k).present) < 4
        then ((x.1.netplay_port +
            (ls.takeWhile (fun k => k ≠ l)).countP (fun k => (cs k).present) : Nat) : Int)
        else -1 := by
  induction ls with
  | nil => intro x _ l hl; simp at hl
  | cons k ls ih =>
    intro x hnd l hl
    rw [List.nodup_cons] at hnd
    rw [List.foldl_cons]
    rcases List.mem_cons.1 hl with rfl | hmem
    · rw [alloc_fold_map_of_not_mem cs ls _ l hnd.1, alloc_local_eq]
      have htw : (l :: ls).takeWhile (fun k => decide (k ≠ l)) = [] := by simp
      rw [htw]
      simp only [List.countP_nil, add_zero]
      split_ifs with hc <;> simp [insert_local_to_netplay]
    · have hne : k ≠ l := fun h => hnd.1 (h ▸ hmem)
      have htw : (k :: ls).takeWhile (fun k => decide (k ≠ l)) =
          k :: ls.takeWhile (fun k => decide (k ≠ l)) := by simp [List.takeWhile_cons, hne]
      rw [ih (alloc_local cs x k) hnd.2 l hmem, alloc_local_eq, htw, List.countP_cons]
      by_cases hk : (cs k).present = true
      · by_cases hx : x.1.netplay_port < 4
        · simp only [hk, hx, and_self, if_true]
          split_ifs with h1 h2 h2
          · push_cast; ring
          · exfalso; apply h2; refine ⟨h1.1, ?_⟩; have := h1.2; omega
          · exfalso; apply h1; refine ⟨h2.1, ?_⟩; have := h2.2; omega
          · rfl
        · simp only [hk, hx, and_false, if_false]
          split_ifs with h1 h2 h2
          · exfalso; have := h1.2; omega
          · exfalso; have := h1.2; omega
          · exfalso; have := h2.2; omega
          · rfl
      · simp [hk]


theorem ports_nodup : ports.Nodup := by decide

theorem mem_ports (l : Fin 4) : l ∈ ports := by
  fin_cases l <;> simp [ports]

theorem takeWhile_ports (s : session) (l : Fin 4) :
    (ports.takeWhile (fun k => decide (k ≠ l))).countP (fun k => (s.controllers k).present) =
      present_below s l := by
  fin_cases l <;> rfl

theorem alloc_session_fields (a : alloc) (s : session) :
    (alloc_session a s).2.id = s.id ∧ (alloc_session a s).2.name = s.name ∧
    (alloc_session a s).2.controllers = s.controllers ∧
    (alloc_session a s).2.is_player = s.is_player ∧ (alloc_session a s).2.fps = s.fps ∧
    (alloc_session a s).2.minimum_latency = s.minimum_latency ∧
    (alloc_session a s).2.latency = s.latency ∧ (alloc_session a s).2.closed = s.closed :=
  ⟨rfl, rfl, rfl, rfl, rfl, rfl, rfl, rfl⟩

theorem alloc_session_port (a : alloc) (s : session) :
    a.netplay_port ≤ (alloc_session a s).1.netplay_port ∧
    (a.netplay_port ≤ 4 → (alloc_session a s).1.netplay_port =
      min 4 (a.netplay_port + present_count s)) :=
  ⟨(alloc_fold_port s.controllers ports (a, s.my_controller_map)).1,
   fun h => alloc_fold_port_eq s.controllers ports (a, s.my_controller_map) h⟩

theorem alloc_session_frame (a : alloc) (s : session) (n : Fin 4)
    (h : n.val < a.netplay_port ∨ (alloc_session a s).1.netplay_port ≤ n.val) :
    (alloc_session a s).1.netplay_controllers n = a.netplay_controllers n :=
  alloc_fold_frame s.controllers ports (a, s.my_controller_map) n h

theorem alloc_session_map (a : alloc) (s : session) (l : Fin 4) :
    (alloc_session a s).2.my_controller_map.local_to_netplay l =
      if (s.controllers l).present = true ∧ a.netplay_port + present_below s l < 4
      then ((a.netplay_port + present_below s l : Nat) : Int) else -1 := by
  have h := alloc_fold_map_rank s.controllers ports (a, s.my_controller_map) ports_nodup l
    (mem_ports l)
  rw [takeWhile_ports] at h
  exact h

theorem alloc_session_slot (a : alloc) (s : session) (l : Fin 4)
    (h : 0 ≤ (alloc_session a s).2.my_controller_map.local_to_netplay l) :
    ∃ n : Fin 4, (n.val : Int) = (alloc_session a s).2.my_controller_map.local_to_netplay l ∧
      a.netplay_port ≤ n.val ∧ n.val < (alloc_session a s).1.netplay_port ∧
      (alloc_session a s).1.netplay_controllers n = s.controllers l ∧
      (s.controllers l).present = true :=
  alloc_fold_map_slot s.controllers ports (a, s.my_controller_map) ports_nodup l (mem_ports l) h


theorem alloc_sessions_nil (a : alloc) : alloc_sessions a [] = (a, []) := rfl

theorem alloc_sessions_cons_fst (a : alloc) (s : session) (rest : List session) :
    (alloc_sessions a (s :: rest)).1 = (alloc_sessions (alloc_session a s).1 rest).1 := rfl

theorem alloc_sessions_cons_snd (a : alloc) (s : session) (rest : List session) :
    (alloc_sessions a (s :: rest)).2 =
      (alloc_session a s).2 :: (alloc_sessions (alloc_session a s).1 rest).2 := rfl

theorem total_present_cons (s : session) (ss : List session) :
    total_present (s :: ss) = present_count s + total_present ss := by
  simp [total_present]

theorem alloc_sessions_port (ss : List session) :
    ∀ a : alloc, a.netplay_port ≤ (alloc_sessions a ss).1.netplay_port ∧
      (a.netplay_port ≤ 4 → (alloc_sessions a ss).1.netplay_port =
        min 4 (a.netplay_port + total_present ss)) := by
  induction ss with
  | nil => intro a; simp [alloc_sessions_nil, total_present]
  | cons s rest ih =>
    intro a
    rw [alloc_sessions_cons_fst, total_present_cons]
    have h1 := alloc_session_port a s
    have h2 := ih (alloc_session a s).1
    refine ⟨le_trans h1.1 h2.1, fun h => ?_⟩
    have h3 := h1.2 h
    rw [h2.2 (by rw [h3]; omega), h3]
    omega

theorem alloc_sessions_frame (ss : List session) :
    ∀ (a : alloc) (n : Fin 4),
      (n.val < a.netplay_port ∨ (alloc_sessions a ss).1.netplay_port ≤ n.val) →
      (alloc_sessions a ss).1.netplay_controllers n = a.netplay_controllers n := by
  induction ss with
  | nil => intro a n _; rfl
  | cons s rest ih =>
    intro a n h
    rw [alloc_sessions_cons_fst] at h ⊢
    have h1 := (alloc_session_port a s).1
    have h2 := (alloc_sessions_port rest (alloc_session a s).1).1
    rw [ih _ n (by omega), alloc_session_frame a s n (by omega)]

theorem alloc_sessions_present (ss : List session) :
    ∀ (a : alloc),
      (∀ n : Fin 4, n.val < a.netplay_port → (a.netplay_controllers n).present = true) →
      ∀ n : Fin 4, n.val < (alloc_sessions a ss).1.netplay_port →
        ((alloc_sessions a ss).1.netplay_controllers n).present = true := by
  induction ss with
  | nil => intro a ha n hn; exact ha n hn
  | cons s rest ih =>
    intro a ha
    rw [alloc_sessions_cons_fst]
    exact ih _ (alloc_fold_present s.controllers ports (a, s.my_controller_map) ha)

theorem alloc_sessions_slot (ss : List session) :
    ∀ (a : alloc) (t : session), t ∈ (alloc_sessions a ss).2 → ∀ l : Fin 4,
      0 ≤ t.my_controller_map.local_to_netplay l →
      ∃ n : Fin 4, (n.val : Int) = t.my_controller_map.local_to_netplay l ∧
        a.netplay_port ≤ n.val ∧ n.val < (alloc_sessions a ss).1.netplay_port ∧
        (alloc_sessions a ss).1.netplay_controllers n = t.controllers l ∧
        (t.controllers l).present = true := by
  induction ss with
  | nil => intro a t ht; simp [alloc_sessions_nil] at ht
  | cons s rest ih =>
    intro a t ht l hl
    rw [alloc_sessions_cons_snd] at ht
    rw [alloc_sessions_cons_fst]
    have hp1 := (alloc_session_port a s).1
    have hp2 := (alloc_sessions_port rest (alloc_session a s).1).1
    rcases List.mem_cons.1 ht with rfl | hmem
    · obtain ⟨n, h1, h2, h3, h4, h5⟩ := alloc_session_slot a s l hl
      refine ⟨n, h1, h2, by omega, ?_, h5⟩
      rw [alloc_sessions_frame rest _ n (Or.inl h3)]
      exact h4
    · obtain ⟨n, h1, h2, h3, h4, h5⟩ := ih _ t hmem l hl
      exact ⟨n, h1, by omega, h3, h4, h5⟩

theorem alloc_sessions_get (ss : List session) :
    ∀ (a : alloc) (i : Nat) (s : session), ss[i]? = some s →
      ∃ t, (alloc_sessions a ss).2[i]? = some t ∧
        t = { s with my_controller_map := t.my_controller_map } ∧
        ∀ l : Fin 4, t.my_controller_map.local_to_netplay l =
          if (s.controllers l).present = true ∧
              a.netplay_port + total_present (ss.take i) + present_below s l < 4
          then ((a.netplay_port + total_present (ss.take i) + present_below s l : Nat) : Int)
          else -1 := by
  induction ss with
  | nil => intro a i s h; simp at h
  | cons s0 rest ih =>
    intro a i s h
    rw [alloc_sessions_cons_snd]
    cases i with
    | zero =>
      simp only [List.getElem?_cons_zero, Option.some.injEq] at h
      subst h
      refine ⟨(alloc_session a s0).2, by simp, rfl, fun l => ?_⟩
      simpa [total_present] using alloc_session_map a s0 l
    | succ i =>
      simp only [List.getElem?_cons_succ] at h
      obtain ⟨t, h1, h2, h3⟩ := ih (alloc_session a s0).1 i s h
      refine ⟨t, by simpa using h1, h2, fun l => ?_⟩
      rw [h3 l, List.take_succ_cons, total_present_cons]
      have hp := alloc_session_port a s0
      by_cases ha : a.netplay_port ≤ 4
      · rw [hp.2 ha]
        split_ifs with c1 c2 c2
        · congr 1; omega
        · exfalso; apply c2; refine ⟨c1.1, ?_⟩; have := c1.2; omega
        · exfalso; apply c1; refine ⟨c2.1, ?_⟩; have := c2.2; omega
        · rfl
      · have := hp.1
        split_ifs with c1 c2 c2
        · exfalso; have := c1.2; omega
        · exfalso; have := c1.2; omega
        · exfalso; have := c2.2; omega
        · rfl

theorem alloc_sessions_length (ss : List session) :
    ∀ a : alloc, (alloc_sessions a ss).2.length = ss.length := by
  induction ss with
  | nil => intro a; rfl
  | cons s rest ih => intro a; rw [alloc_sessions_cons_snd, List.length_cons, ih, List.length_cons]

theorem present_below_lt_count (s : session) (l : Fin 4) (h : (s.controllers l).present = true) :
    present_below s l + 1 ≤ present_count s := by
  fin_cases l <;> simp [present_below, present_count, ports, List.countP_cons] at h ⊢ <;>
    simp [h] <;> omega

theorem present_below_lt (s : session) (l k : Fin 4) (hlk : l < k)
    (h : (s.controllers l).present = true) :
    present_below s l + 1 ≤ present_below s k := by
  fin_cases l <;> fin_cases k <;> simp [present_below, ports, List.countP_cons] at h hlk ⊢ <;>
    simp [h] <;> omega

theorem total_present_take_succ (ss : List session) (i : Nat) (s : session)
    (h : ss[i]? = some s) :
    total_present (ss.take (i + 1)) = total_present (ss.take i) + present_count s := by
  simp [total_present, List.take_succ, h]

theorem total_present_take_mono (ss : List session) (i j : Nat) (h : i ≤ j) :
    total_present (ss.take i) ≤ total_present (ss.take j) := by
  have h1 : ss.take i = (ss.take j).take i := by rw [List.take_take, min_eq_left h]
  have h2 : total_present (ss.take j) =
      total_present ((ss.take j).take i) + total_present ((ss.take j).drop i) := by
    unfold total_present
    rw [← List.sum_append, ← List.map_append, List.take_append_drop]
  rw [h2, ← h1]
  omega

theorem rank_strict (ss : List session) (i j : Nat) (s t : session) (l k : Fin 4)
    (hs : ss[i]? = some s) (ht : ss[j]? = some t) (hp : (s.controllers l).present = true)
    (hlt : i < j ∨ (i = j ∧ l < k)) : rank ss i s l < rank ss j t k := by
  unfold rank
  rcases hlt with hij | ⟨rfl, hlk⟩
  · have h1 := total_present_take_succ ss i s hs
    have h2 := total_present_take_mono ss (i + 1) j hij
    have h3 := present_below_lt_count s l hp
    omega
  · rw [hs] at ht
    cases ht
    have := present_below_lt s l k hlk hp
    omega


/-- The allocation state `update_controllers` starts from. -/
theorem update_controllers_fst (st : server) :
    (update_controllers st).1 =
      { st with
        sessions := (alloc_sessions
          { netplay_controllers := fun _ => controller.absent, netplay_port := 0 }
          st.sessions).2
        netplay_controllers := (alloc_sessions
          { netplay_controllers := fun _ => controller.absent, netplay_port := 0 }
          st.sessions).1.netplay_controllers } := rfl

/-- After the allocation a slot is present exactly when it lies below the final port. -/
theorem update_controllers_present_iff (st : server) (n : Fin 4) :
    ((update_controllers st).1.netplay_controllers n).present = true ↔
      n.val < min 4 (total_present st.sessions) := by
  rw [update_controllers_fst]
  simp only
  have hp := (alloc_sessions_port st.sessions
    { netplay_controllers := fun _ => controller.absent, netplay_port := 0 }).2 (by simp)
  simp only [zero_add] at hp
  rw [← hp]
  constructor
  · intro h
    by_contra hn
    rw [alloc_sessions_frame st.sessions _ n (Or.inr (by omega))] at h
    simp [controller.absent] at h
  · intro h
    exact alloc_sessions_present st.sessions _ (fun n hn => by simp at hn) n h

/-- C1: after `update_controllers` the netplay slots are packed: an absent slot is followed
by absent slots only. -/
theorem update_controllers_packed (st : server) (i j : Fin 4) (hij : i < j)
    (hi : ((update_controllers st).1.netplay_controllers i).present = false) :
    ((update_controllers st).1.netplay_controllers j).present = false := by
  have h1 := update_controllers_present_iff st i
  have h2 := update_controllers_present_iff st j
  have hlt : i.val < j.val := hij
  by_contra hj
  rw [Bool.not_eq_false] at hj
  have := h2.1 hj
  have := h1.2 (by omega)
  simp_all

theorem update_controllers_packed_witness :
    (2 : Fin 4) < 3 ∧
    ((update_controllers (lobby [session_A, session_B])).1.netplay_controllers 2).present = false ∧
    ((update_controllers (lobby [session_A, session_B])).1.netplay_controllers 3).present = false :=
  ⟨by decide, by decide,
    update_controllers_packed (lobby [session_A, session_B]) 2 3 (by decide) (by decide)⟩

/-- C2: after `update_controllers`, a non-negative entry `n` of a session's
`local_to_netplay` at local port `l` is below four, and netplay slot `n` holds exactly the
local controller `l` of that session, which is present. -/
theorem update_controllers_map_slot (st : server) (s : session)
    (hs : s ∈ (update_controllers st).1.sessions) (l : Fin 4) (n : Int)
    (hn : s.my_controller_map.local_to_netplay l = n) (h0 : 0 ≤ n) :
    n < 4 ∧ ∃ k : Fin 4, (k.val : Int) = n ∧
      (update_controllers st).1.netplay_controllers k = s.controllers l ∧
      ((update_controllers st).1.netplay_controllers k).present = true := by
  rw [update_controllers_fst] at hs ⊢
  simp only at hs ⊢
  subst hn
  obtain ⟨k, h1, _, _, h4, h5⟩ := alloc_sessions_slot st.sessions _ s hs l h0
  refine ⟨by have := k.isLt; omega, k, h1, h4, ?_⟩
  rw [h4]; exact h5

theorem update_controllers_map_slot_witness :
    (1 : Int) < 4 ∧ ∃ k : Fin 4, (k.val : Int) = 1 ∧
      (update_controllers (lobby [session_A, session_B])).1.netplay_controllers k =
        session_B.controllers 0 ∧
      ((update_controllers (lobby [session_A, session_B])).1.netplay_controllers k).present
        = true :=
  update_controllers_map_slot (lobby [session_A, session_B])
    ((update_controllers (lobby [session_A, session_B])).1.sessions.getD 1 session_B)
    (List.getElem?_mem (l := (update_controllers (lobby [session_A, session_B])).1.sessions)
      (n := 1) rfl) 0 1 rfl (by decide)

/-- The number of present slots after the allocation. -/
theorem update_controllers_player_count (st : server) :
    player_count (update_controllers st).1 = min 4 (total_present st.sessions) := by
  have h0 := update_controllers_present_iff st 0
  have h1 := update_controllers_present_iff st 1
  have h2 := update_controllers_present_iff st 2
  have h3 := update_controllers_present_iff st 3
  have hp : min 4 (total_present st.sessions) ≤ 4 := Nat.min_le_left _ _
  generalize min 4 (total_present st.sessions) = p at h0 h1 h2 h3 hp ⊢
  unfold player_count
  simp only [ports, List.foldl_cons, List.foldl_nil]
  simp only [Fin.val_zero, Fin.val_one, Fin.val_two] at h0 h1 h2
  have h3v : ((3 : Fin 4) : Nat) = 3 := rfl
  rw [h3v] at h3
  by_cases c0 : 0 < p <;> by_cases c1 : 1 < p <;> by_cases c2 : 2 < p <;> by_cases c3 : 3 < p <;>
    simp only [c0, c1, c2, c3, iff_true, iff_false, Bool.not_eq_true] at h0 h1 h2 h3 <;>
    simp [h0, h1, h2, h3] <;> omega

/-- C3: `update_controllers` assigns netplay ports by rank.  The session at position `i`
keeps its fields and gets `local_to_netplay[l]` equal to the rank of `(i, l)` when that
controller is present and the rank is below four, and `-1` otherwise; the number of present
netplay slots is the minimum of four and the number of present local controllers; and a
non-negative netplay port is assigned to one position only. -/
theorem update_controllers_by_rank (st : server) :
    (∀ (i : Nat) (s : session), st.sessions[i]? = some s →
      ∃ t, (update_controllers st).1.sessions[i]? = some t ∧
        t = { s with my_controller_map := t.my_controller_map } ∧
        ∀ l : Fin 4, t.my_controller_map.local_to_netplay l = assigned st.sessions i s l) ∧
    player_count (update_controllers st).1 = min 4 (total_present st.sessions) ∧
    (∀ (i j : Nat) (s t : session) (l k : Fin 4),
      (update_controllers st).1.sessions[i]? = some s →
      (update_controllers st).1.sessions[j]? = some t →
      0 ≤ s.my_controller_map.local_to_netplay l →
      s.my_controller_map.local_to_netplay l = t.my_controller_map.local_to_netplay k →
      i = j ∧ l = k) := by
  have hA : ∀ (i : Nat) (s : session), st.sessions[i]? = some s →
      ∃ t, (update_controllers st).1.sessions[i]? = some t ∧
        t = { s with my_controller_map := t.my_controller_map } ∧
        ∀ l : Fin 4, t.my_controller_map.local_to_netplay l = assigned st.sessions i s l := by
    intro i s hs
    obtain ⟨t, h1, h2, h3⟩ := alloc_sessions_get st.sessions
      { netplay_controllers := fun _ => controller.absent, netplay_port := 0 } i s hs
    refine ⟨t, h1, h2, fun l => ?_⟩
    rw [h3 l]
    simp only [assigned, rank, zero_add]
  refine ⟨hA, update_controllers_player_count st, ?_⟩
  intro i j s t l k hs ht h0 heq
  have hlen : (update_controllers st).1.sessions.length = st.sessions.length :=
    alloc_sessions_length st.sessions _
  have hi : i < st.sessions.length := by
    rw [← hlen]; exact (List.getElem?_eq_some.1 hs).1
  have hj : j < st.sessions.length := by
    rw [← hlen]; exact (List.getElem?_eq_some.1 ht).1
  have hs0 : st.sessions[i]? = some st.sessions[i] := List.getElem?_eq_getElem hi
  have ht0 : st.sessions[j]? = some st.sessions[j] := List.getElem?_eq_getElem hj
  obtain ⟨s1, a1, _, a3⟩ := hA i _ hs0
  obtain ⟨t1, b1, _, b3⟩ := hA j _ ht0
  rw [hs] at a1; cases a1
  rw [ht] at b1; cases b1
  rw [a3 l] at h0 heq
  rw [b3 k] at heq
  unfold assigned at h0 heq
  split_ifs at h0 heq with c1 c2
  · have hr : rank st.sessions i st.sessions[i] l = rank st.sessions j st.sessions[j] k := by
      exact_mod_cast heq
    by_contra hne
    have hcases : (i < j ∨ (i = j ∧ l < k)) ∨ (j < i ∨ (j = i ∧ k < l)) := by
      rcases Nat.lt_trichotomy i j with h | h | h
      · exact Or.inl (Or.inl h)
      · rcases lt_trichotomy l k with h2 | h2 | h2
        · exact Or.inl (Or.inr ⟨h, h2⟩)
        · exact absurd ⟨h, h2⟩ hne
        · exact Or.inr (Or.inr ⟨h.symm, h2⟩)
      · exact Or.inr (Or.inl h)
    rcases hcases with h | h
    · have := rank_strict st.sessions i j _ _ l k hs0 ht0 c1.1 h
      omega
    · have := rank_strict st.sessions j i _ _ k l ht0 hs0 c2.1 h
      omega
  · omega


theorem update_controllers_by_rank_witness :
    (lobby [session_A, session_B]).sessions[1]? = some session_B ∧
    (∃ t, (update_controllers (lobby [session_A, session_B])).1.sessions[1]? = some t ∧
      t = { session_B with my_controller_map := t.my_controller_map } ∧
      ∀ l : Fin 4, t.my_controller_map.local_to_netplay l =
        assigned (lobby [session_A, session_B]).sessions 1 session_B l) ∧
    (update_controllers (lobby [session_A, session_B])).1.sessions.map
        (fun s => ports.map s.my_controller_map.local_to_netplay) =
      [[0, -1, -1, -1], [1, -1, -1, -1]] ∧
    ports.map (update_controllers (lobby [session_A, session_B])).1.netplay_controllers =
      [session_A.controllers 0, session_B.controllers 0, controller.absent,
        controller.absent] :=
  ⟨rfl, (update_controllers_by_rank (lobby [session_A, session_B])).1 1 session_B rfl,
    by decide, by decide⟩

/-! ## Frames received by one session -/

theorem packets_to_nil (r : Nat) : packets_to [] r = [] := rfl

theorem packets_to_cons (e : Nat × packet) (out : outbox) (r : Nat) :
    packets_to (e :: out) r = if e.1 = r then e.2 :: packets_to out r else packets_to out r := by
  unfold packets_to
  by_cases h : e.1 = r <;> simp [List.filter_cons, h]

theorem packets_to_append (o1 o2 : outbox) (r : Nat) :
    packets_to (o1 ++ o2) r = packets_to o1 r ++ packets_to o2 r := by
  simp [packets_to]

theorem packets_to_flatMap {α : Type} (l : List α) (f : α → outbox) (r : Nat) :
    packets_to (l.flatMap f) r = l.flatMap (fun x => packets_to (f x) r) := by
  induction l with
  | nil => rfl
  | cons x xs ih => simp [List.flatMap_cons, packets_to_append, ih]

/-- A frame sent to every session of a list reaches the session with id `r` once for every
entry of the list with that id. -/
theorem packets_to_map (ss : List session) (p : packet) (r : Nat) :
    packets_to (ss.map (fun jt => (jt.id, p))) r =
      List.replicate ((ss.map (fun s => s.id)).count r) p := by
  induction ss with
  | nil => rfl
  | cons s rest ih =>
    rw [List.map_cons, packets_to_cons, ih, List.map_cons, List.count_cons]
    by_cases h : s.id = r <;> simp [h, List.replicate_succ]

theorem packets_to_map_of_mem (ss : List session) (p : packet) (r : session)
    (hnd : (ss.map (fun s => s.id)).Nodup) (hr : r ∈ ss) :
    packets_to (ss.map (fun jt => (jt.id, p))) r.id = [p] := by
  rw [packets_to_map, List.count_eq_one_of_mem hnd (List.mem_map_of_mem _ hr)]
  rfl

theorem alloc_sessions_ids (ss : List session) :
    ∀ a : alloc, (alloc_sessions a ss).2.map (fun s => s.id) = ss.map (fun s => s.id) := by
  induction ss with
  | nil => intro a; rfl
  | cons s rest ih =>
    intro a
    rw [alloc_sessions_cons_snd, List.map_cons, ih, List.map_cons]
    rfl

theorem update_controllers_ids (st : server) :
    (update_controllers st).1.sessions.map (fun s => s.id) = st.sessions.map (fun s => s.id) :=
  alloc_sessions_ids st.sessions _

theorem update_controllers_snd (st : server) :
    (update_controllers st).2 =
      (update_controllers st).1.sessions.flatMap (fun it =>
        (it.id, packet.NETPLAY_CONTROLLERS
            (ports.map (update_controllers st).1.netplay_controllers)) ::
          (update_controllers st).1.sessions.map (fun jt => (jt.id, controllers_packet it))) :=
  rfl

/-- The frames of one allocation that reach a session, when the loop over subjects runs
over `subjects` and the loop over recipients over `ss`. -/
theorem packets_to_controllers (ss subjects : List session) (np : packet) (r : session)
    (hnd : (ss.map (fun s => s.id)).Nodup) (hr : r ∈ ss) :
    packets_to (subjects.flatMap (fun it =>
        (it.id, np) :: ss.map (fun jt => (jt.id, controllers_packet it)))) r.id =
      subjects.flatMap (fun it =>
        if it.id = r.id then [np, controllers_packet it] else [controllers_packet it]) := by
  rw [packets_to_flatMap]
  congr 1
  funext it
  rw [packets_to_cons, packets_to_map_of_mem ss _ r hnd hr]

/-- C4 (amended): with distinct ids in the registry, the frames one `update_controllers` call
sends to a registered session `r` are, in order, the `CONTROLLERS` frames of the sessions in
front of `r`, one `NETPLAY_CONTROLLERS` frame, the `CONTROLLERS` frame of `r` and the
`CONTROLLERS` frames of the sessions behind `r`. -/
theorem update_controllers_frames_to (st : server) (before after : List session) (r : session)
    (hnd : (st.sessions.map (fun s => s.id)).Nodup)
    (hsplit : (update_controllers st).1.sessions = before ++ r :: after) :
    packets_to (update_controllers st).2 r.id =
      before.map controllers_packet ++
        packet.NETPLAY_CONTROLLERS (ports.map (update_controllers st).1.netplay_controllers) ::
          controllers_packet r :: after.map controllers_packet := by
  have hnd1 : ((update_controllers st).1.sessions.map (fun s => s.id)).Nodup := by
    rw [update_controllers_ids]; exact hnd
  have hr : r ∈ (update_controllers st).1.sessions := by rw [hsplit]; simp
  rw [update_controllers_snd, packets_to_controllers _ _ _ r hnd1 hr]
  rw [hsplit] at hnd1 ⊢
  rw [List.map_append, List.map_cons, List.nodup_append] at hnd1
  obtain ⟨_, h2, h3⟩ := hnd1
  rw [List.nodup_cons] at h2
  have hb : ∀ s ∈ before, s.id ≠ r.id := by
    intro s hs he
    exact h3 (List.mem_map_of_mem _ hs) (he ▸ List.mem_cons_self _ _)
  have ha : ∀ s ∈ after, s.id ≠ r.id := by
    intro s hs he
    exact h2.1 (he ▸ List.mem_map_of_mem (fun s => s.id) hs)
  have hmap : ∀ l : List session, (∀ s ∈ l, s.id ≠ r.id) →
      l.flatMap (fun it =>
        if it.id = r.id then
          [packet.NETPLAY_CONTROLLERS
            (ports.map (update_controllers st).1.netplay_controllers), controllers_packet it]
        else [controllers_packet it]) = l.map controllers_packet := by
    intro l hl
    induction l with
    | nil => rfl
    | cons x xs ih =>
      rw [List.flatMap_cons, List.map_cons, if_neg (hl x (List.mem_cons_self _ _)),
        ih (fun s hs => hl s (List.mem_cons_of_mem _ hs))]
      rfl
  rw [List.flatMap_append, List.flatMap_cons, hmap before hb, hmap after ha]
  simp


theorem update_controllers_frames_to_witness :
    ((lobby [session_A, session_B]).sessions.map (fun s => s.id)).Nodup ∧
    packets_to (update_controllers (lobby [session_A, session_B])).2 1 =
      [lobby_AB.sessions.getD 0 session_A].map controllers_packet ++
        packet.NETPLAY_CONTROLLERS (ports.map lobby_AB.netplay_controllers) ::
          controllers_packet (lobby_AB.sessions.getD 1 session_B) ::
            ([] : List session).map controllers_packet :=
  ⟨by decide,
    update_controllers_frames_to (lobby [session_A, session_B])
      [lobby_AB.sessions.getD 0 session_A] [] (lobby_AB.sessions.getD 1 session_B)
      (by decide) rfl⟩

/-- C4 (counterexample): with A and B registered in this order, the first frame one
`update_controllers` call sends to B is the `CONTROLLERS` frame of A; the
`NETPLAY_CONTROLLERS` frame comes second. -/
theorem update_controllers_frames_to_second :
    packets_to (update_controllers (lobby [session_A, session_B])).2 1 =
      [controllers_packet (lobby_AB.sessions.getD 0 session_A),
       packet.NETPLAY_CONTROLLERS (ports.map lobby_AB.netplay_controllers),
       controllers_packet (lobby_AB.sessions.getD 1 session_B)] ∧
    netplay_controllers_first
      (packets_to (update_controllers (lobby [session_A, session_B])).2 1) = false := by
  decide

/-! ## Quit in the lobby -/

/-- C5 (the code at the scenario of the claim): with A, B, C in the lobby and netplay slots
`[A, B, C, absent]`, `on_session_quit` for B sends `QUIT(1)` to A, B and C and erases B, and
that is all: the slots still are `[A, B, C, absent]`, the entry of C still is 2, and no
`NETPLAY_CONTROLLERS` frame is sent; a new allocation over the remaining sessions would give
`[A, C, absent, absent]` and the entry 1. -/
theorem on_session_quit_lobby_keeps_slots :
    lobby_ABC.started = false ∧
    ports.map lobby_ABC.netplay_controllers =
      [session_A.controllers 0, session_B.controllers 0, session_C.controllers 0,
        controller.absent] ∧
    (on_session_quit lobby_ABC 1).1.sessions.map (fun s => s.id) = [0, 2] ∧
    (on_session_quit lobby_ABC 1).2 =
      [(0, packet.QUIT 1), (1, packet.QUIT 1), (2, packet.QUIT 1)] ∧
    ports.map (on_session_quit lobby_ABC 1).1.netplay_controllers =
      [session_A.controllers 0, session_B.controllers 0, session_C.controllers 0,
        controller.absent] ∧
    (on_session_quit lobby_ABC 1).1.sessions.map
        (fun s => s.my_controller_map.local_to_netplay 0) = [0, 2] ∧
    ports.map (update_controllers (on_session_quit lobby_ABC 1).1).1.netplay_controllers =
      [session_A.controllers 0, session_C.controllers 0, controller.absent,
        controller.absent] ∧
    (update_controllers (on_session_quit lobby_ABC 1).1).1.sessions.map
        (fun s => s.my_controller_map.local_to_netplay 0) = [0, 1] := by
  decide

/-! ## Fan-out of input and lag -/

/-- A frame list sent to all sessions that satisfy a condition reaches a session with a
distinct id exactly when it satisfies the condition. -/
theorem packets_to_flatMap_if (ss : List session) (c : session → Bool) (f : session → List packet)
    (hnd : (ss.map (fun s => s.id)).Nodup) (r : session) (hr : r ∈ ss) :
    packets_to (ss.flatMap (fun it => if c it = true then (f it).map (fun p => (it.id, p)) else []))
      r.id = if c r = true then f r else [] := by
  induction ss with
  | nil => simp at hr
  | cons s rest ih =>
    rw [List.map_cons, List.nodup_cons] at hnd
    rw [List.flatMap_cons, packets_to_append]
    have hrest : ∀ r' : Nat, r' ∉ rest.map (fun s => s.id) →
        packets_to (rest.flatMap (fun it =>
          if c it = true then (f it).map (fun p => (it.id, p)) else [])) r' = [] := by
      intro r' hr'
      rw [packets_to_flatMap]
      rw [List.flatMap_eq_nil_iff]
      intro x hx
      have hne : x.id ≠ r' := fun h => hr' (h ▸ List.mem_map_of_mem (fun s => s.id) hx)
      split_ifs
      · simp [packets_to, List.filter_eq_nil_iff, hne]
      · rfl
    rcases List.mem_cons.1 hr with rfl | hmem
    · rw [hrest _ hnd.1, List.append_nil]
      split_ifs
      · simp [packets_to, List.filter_map, Function.comp_def]
      · rfl
    · have hne : s.id ≠ r.id := fun h => hnd.1 (h ▸ List.mem_map_of_mem (fun s => s.id) hmem)
      rw [ih hnd.2 hmem]
      have : packets_to (if c s = true then (f s).map (fun p => (s.id, p)) else []) r.id = [] := by
        split_ifs
        · simp [packets_to, List.filter_eq_nil_iff, hne]
        · rfl
      rw [this, List.nil_append]

theorem packets_to_flatMap_if_of_not_mem (ss : List session) (c : session → Bool)
    (f : session → List packet) (r : Nat) (hr : ∀ s ∈ ss, c s = true → s.id ≠ r) :
    packets_to (ss.flatMap (fun it => if c it = true then (f it).map (fun p => (it.id, p)) else []))
      r = [] := by
  rw [packets_to_flatMap, List.flatMap_eq_nil_iff]
  intro x hx
  split_ifs with h
  · simp [packets_to, List.filter_eq_nil_iff, hr x hx h]
  · rfl

theorem send_input_snd (st : server) (id port input : Nat) :
    (send_input st id port input).2 = st.sessions.flatMap (fun it =>
      if (decide (it.id ≠ id)) = true then [packet.INPUT port input].map (fun p => (it.id, p))
      else []) := by
  unfold send_input
  simp only
  congr 1
  funext it
  by_cases h : it.id = id <;> simp [h]

/-- C6: `send_input` leaves the server state unchanged and sends `INPUT(port, input)`, with
the port and the bits it was given, once to every registered session whose id differs from
`id`, in registry order; the session with id `id` receives nothing. -/
theorem send_input_fanout (st : server) (id port input : Nat) :
    (send_input st id port input).1 = st ∧
    (send_input st id port input).2 =
      (st.sessions.filter (fun s => decide (s.id ≠ id))).map
        (fun s => (s.id, packet.INPUT port input)) ∧
    packets_to (send_input st id port input).2 id = [] ∧
    ((st.sessions.map (fun s => s.id)).Nodup → ∀ s ∈ st.sessions, s.id ≠ id →
      packets_to (send_input st id port input).2 s.id = [packet.INPUT port input]) := by
  refine ⟨rfl, ?_, ?_, ?_⟩
  · unfold send_input
    simp only
    induction st.sessions with
    | nil => rfl
    | cons s rest ih =>
      rw [List.flatMap_cons, ih, List.filter_cons]
      by_cases h : s.id = id <;> simp [h]
  · rw [send_input_snd]
    apply packets_to_flatMap_if_of_not_mem
    intro s _ h
    simpa using h
  · intro hnd s hs hne
    rw [send_input_snd, packets_to_flatMap_if _ _ (fun _ => [packet.INPUT port input]) hnd s hs]
    simp [hne]

theorem send_input_fanout_witness :
    packets_to (send_input lobby_AB 0 0 0xDEADBEEF).2 1 = [packet.INPUT 0 0xDEADBEEF] ∧
    packets_to (send_input lobby_AB 0 0 0xDEADBEEF).2 0 = [] :=
  ⟨(send_input_fanout lobby_AB 0 0 0xDEADBEEF).2.2.2 (by decide)
      (lobby_AB.sessions.getD 1 session_B) (List.getElem?_mem (n := 1) rfl) (by decide),
    (send_input_fanout lobby_AB 0 0 0xDEADBEEF).2.2.1⟩


/-- The name lookup of `send_lag` succeeds for the server and for a registered session. -/
theorem lag_sender_isSome (st : server) (id : Int)
    (h : id = -1 ∨ ∃ s ∈ st.sessions, s.id = to_u32 id) : ∃ name, lag_sender st id = some name := by
  unfold lag_sender
  by_cases hid : id = -1
  · exact ⟨_, if_pos hid⟩
  · rw [if_neg hid]
    rcases h with h | ⟨s, hs, he⟩
    · exact absurd h hid
    · cases hf : st.sessions.find? (fun s => decide (s.id = to_u32 id)) with
      | none =>
        rw [List.find?_eq_none] at hf
        exact absurd (by simpa using he) (hf s hs)
      | some t => exact ⟨t.name, rfl⟩

theorem send_lag_eq (st : server) (id : Int) (v : Nat) (name : String)
    (h : lag_sender st id = some name) :
    send_lag st id v = some ({ st with lag := v },
      st.sessions.flatMap (fun it =>
        if (decide (it.id ≠ to_u32 id)) = true then
          [packet.LAG v, packet.MESSAGE (-1)
            (lag_message name v (get_fps { st with lag := v }))].map (fun p => (it.id, p))
        else [])) := by
  have h1 : lag_sender { st with lag := v } id = some name := h
  unfold send_lag
  simp only [h1]
  congr 2
  apply congrArg (fun f => st.sessions.flatMap f)
  funext it
  by_cases hc : it.id = to_u32 id <;> simp [hc]

/-- C10: for a registry with distinct ids that contains the session `id`, `send_lag(id, v)`
returns with the server's lag set to `v` and nothing else changed; every registered session
other than `id` receives `LAG(v)` followed by one `MESSAGE` with sender `-1`, the session `id`
receives nothing, and no frame goes to anyone who is not registered. -/
theorem send_lag_fanout (st : server) (id : Int) (v : Nat)
    (hnd : (st.sessions.map (fun s => s.id)).Nodup)
    (hreg : ∃ s ∈ st.sessions, s.id = to_u32 id) :
    ∃ (out : outbox) (text : String),
      send_lag st id v = some ({ st with lag := v }, out) ∧
      (∀ s ∈ st.sessions, s.id ≠ to_u32 id →
        packets_to out s.id = [packet.LAG v, packet.MESSAGE (-1) text]) ∧
      packets_to out (to_u32 id) = [] ∧
      (∀ r : Nat, (∀ s ∈ st.sessions, s.id ≠ r) → packets_to out r = []) := by
  obtain ⟨name, hname⟩ := lag_sender_isSome st id (Or.inr hreg)
  refine ⟨_, lag_message name v (get_fps { st with lag := v }), send_lag_eq st id v name hname,
    ?_, ?_, ?_⟩
  · intro s hs hne
    rw [packets_to_flatMap_if _ _ (fun _ => [packet.LAG v, packet.MESSAGE (-1)
      (lag_message name v (get_fps { st with lag := v }))]) hnd s hs]
    simp [hne]
  · apply packets_to_flatMap_if_of_not_mem
    intro s _ h
    simpa using h
  · intro r hr
    apply packets_to_flatMap_if_of_not_mem
    intro s hs _
    exact hr s hs

theorem send_lag_fanout_witness :
    (lobby_AB.sessions.map (fun s => s.id)).Nodup ∧
    (∃ s ∈ lobby_AB.sessions, s.id = to_u32 0) ∧
    ∃ (out : outbox) (text : String),
      send_lag lobby_AB 0 3 = some ({ lobby_AB with lag := 3 }, out) ∧
      (∀ s ∈ lobby_AB.sessions, s.id ≠ to_u32 0 →
        packets_to out s.id = [packet.LAG 3, packet.MESSAGE (-1) text]) ∧
      packets_to out (to_u32 0) = [] ∧
      (∀ r : Nat, (∀ s ∈ lobby_AB.sessions, s.id ≠ r) → packets_to out r = []) :=
  ⟨by decide, ⟨lobby_AB.sessions.getD 0 session_A, List.getElem?_mem (n := 0) rfl, rfl⟩,
    send_lag_fanout lobby_AB 0 3 (by decide)
      ⟨lobby_AB.sessions.getD 0 session_A, List.getElem?_mem (n := 0) rfl, rfl⟩⟩


/-! ## Total latency -/

theorem player_latencies_cons (x : session) (xs : List session) :
    player_latencies (x :: xs) =
      if x.is_player = true then x.minimum_latency :: player_latencies xs
      else player_latencies xs := by
  unfold player_latencies
  by_cases h : x.is_player = true <;> simp [List.filter_cons, h]

/-- One iteration keeps the two largest of the pair and the new latency and drops the
third. -/
theorem latency_step_player (m s v : Int) (x : session) (hx : x.is_player = true)
    (hv : x.minimum_latency = v) (hsm : s ≤ m) :
    ∃ d, (m :: s :: [v]).Perm (d :: (latency_step (m, s) x).1 :: [(latency_step (m, s) x).2]) ∧
      (latency_step (m, s) x).2 ≤ (latency_step (m, s) x).1 ∧
      d ≤ (latency_step (m, s) x).2 ∧ s ≤ (latency_step (m, s) x).2 := by
  unfold latency_step
  simp only [hx, if_true, hv]
  by_cases h1 : v > s
  · by_cases h2 : v > m
    · simp only [h1, h2, if_true]
      refine ⟨s, ?_, by omega, hsm, hsm⟩
      exact (List.Perm.swap s m [v]).trans (List.Perm.cons s (List.Perm.swap v m []))
    · simp only [h1, h2, if_true, if_false]
      exact ⟨s, List.Perm.swap s m [v], by omega, by omega, by omega⟩
  · have h3 : ¬ (s > m) := by omega
    simp only [h1, h3, if_false]
    exact ⟨v, @List.perm_middle _ v [m, s] [], hsm, by omega, le_refl _⟩

/-- The loop of `get_total_latency` keeps the two largest values among its starting pair and
the minimum latencies of the players. -/
theorem latency_fold_top_two (ss : List session) :
    ∀ m s : Int, s ≤ m →
      ∃ rest, (m :: s :: player_latencies ss).Perm
          ((ss.foldl latency_step (m, s)).1 :: (ss.foldl latency_step (m, s)).2 :: rest) ∧
        (ss.foldl latency_step (m, s)).2 ≤ (ss.foldl latency_step (m, s)).1 ∧
        (∀ x ∈ rest, x ≤ (ss.foldl latency_step (m, s)).2) ∧
        s ≤ (ss.foldl latency_step (m, s)).2 := by
  induction ss with
  | nil => intro m s h; exact ⟨[], List.Perm.refl _, h, by simp, le_refl _⟩
  | cons x xs ih =>
    intro m s hsm
    rw [List.foldl_cons, player_latencies_cons]
    by_cases hx : x.is_player = true
    · obtain ⟨d, p1, p2, p3, p4⟩ := latency_step_player m s x.minimum_latency x hx rfl hsm
      obtain ⟨rest, q1, q2, q3, q4⟩ := ih (latency_step (m, s) x).1 (latency_step (m, s) x).2 p2
      refine ⟨d :: rest, ?_, q2, ?_, le_trans p4 q4⟩
      · rw [if_pos hx]
        have e1 : (m :: s :: x.minimum_latency :: player_latencies xs).Perm
            (d :: (latency_step (m, s) x).1 :: (latency_step (m, s) x).2 ::
              player_latencies xs) := by
          have := List.Perm.append_right (player_latencies xs) p1
          simpa using this
        refine e1.trans ((List.Perm.cons d q1).trans ?_)
        exact (@List.perm_middle _ d [_, _] rest).symm
      · intro y hy
        rcases List.mem_cons.1 hy with rfl | hy
        · exact le_trans p3 q4
        · exact q3 y hy
    · have hstep : latency_step (m, s) x = (m, s) := by
        unfold latency_step; simp [hx]
      rw [if_neg hx, hstep]
      exact ih m s hsm

/-- Two initial `-1` entries can be removed from a list whose two largest entries are not
negative. -/
theorem top_two_drop_initial (L rest : List Int) (M S : Int) (hS : 0 ≤ S) (hSM : S ≤ M)
    (hp : ((-1 : Int) :: -1 :: L).Perm (M :: S :: rest)) (hrest : ∀ x ∈ rest, x ≤ S) :
    ∃ rest2, L.Perm (M :: S :: rest2) ∧ ∀ x ∈ rest2, x ≤ S := by
  have hmem1 : (-1 : Int) ∈ rest := by
    have h : (-1 : Int) ∈ M :: S :: rest := hp.subset (List.mem_cons_self _ _)
    simp only [List.mem_cons] at h
    rcases h with h | h | h
    · omega
    · omega
    · exact h
  have e1 : (M :: S :: rest).Perm (-1 :: M :: S :: rest.erase (-1)) :=
    ((List.perm_cons_erase hmem1).cons S |>.cons M).trans
      (@List.perm_middle _ (-1) [M, S] (rest.erase (-1)))
  have hp1 : ((-1 : Int) :: L).Perm (M :: S :: rest.erase (-1)) := (hp.trans e1).cons_inv
  have hmem2 : (-1 : Int) ∈ rest.erase (-1) := by
    have h : (-1 : Int) ∈ M :: S :: rest.erase (-1) := hp1.subset (List.mem_cons_self _ _)
    simp only [List.mem_cons] at h
    rcases h with h | h | h
    · omega
    · omega
    · exact h
  have e2 : (M :: S :: rest.erase (-1)).Perm (-1 :: M :: S :: (rest.erase (-1)).erase (-1)) :=
    ((List.perm_cons_erase hmem2).cons S |>.cons M).trans
      (@List.perm_middle _ (-1) [M, S] ((rest.erase (-1)).erase (-1)))
  refine ⟨(rest.erase (-1)).erase (-1), (hp1.trans e2).cons_inv, fun x hx => ?_⟩
  exact hrest x (List.mem_of_mem_erase (List.mem_of_mem_erase hx))

theorem descending_of_top_two (L rest : List Int) (M S : Int) (hSM : S ≤ M)
    (hp : L.Perm (M :: S :: rest)) (hrest : ∀ x ∈ rest, x ≤ S) :
    descending L = M :: S :: descending rest := by
  unfold descending
  apply List.eq_of_perm_of_sorted (r := fun a b => b ≤ a)
  · exact (List.perm_insertionSort _ L).trans
      (hp.trans (((List.perm_insertionSort _ rest).symm.cons S).cons M))
  · exact List.sorted_insertionSort _ L
  · have hmem : ∀ x ∈ List.insertionSort (fun a b => b ≤ a) rest, x ≤ S :=
      fun x hx => hrest x ((List.perm_insertionSort _ rest).subset hx)
    refine List.sorted_cons.2 ⟨?_, List.sorted_cons.2 ⟨hmem, List.sorted_insertionSort _ rest⟩⟩
    intro b hb
    rcases List.mem_cons.1 hb with rfl | hb
    · exact hSM
    · exact le_trans (hmem b hb) hSM

/-- The total latency in the words of the specification, from the pair the loop of
`get_total_latency` ends with. -/
theorem spec_total_latency_eq (ss : List session) :
    spec_total_latency ss =
        (if 0 ≤ (ss.foldl latency_step (-1, -1)).2 then
          (ss.foldl latency_step (-1, -1)).1 + (ss.foldl latency_step (-1, -1)).2
        else -1) ∧
      (ss.foldl latency_step (-1, -1)).2 ≤ (ss.foldl latency_step (-1, -1)).1 := by
  obtain ⟨rest, q1, q2, q3, _⟩ := latency_fold_top_two ss (-1) (-1) (le_refl _)
  refine ⟨?_, q2⟩
  unfold spec_total_latency
  generalize (ss.foldl latency_step (-1, -1)) = r at q1 q2 q3
  by_cases hS : 0 ≤ r.2
  · obtain ⟨rest2, hp, hr⟩ := top_two_drop_initial _ rest r.1 r.2 hS q2 q1 q3
    have hcount : 2 ≤ ((player_latencies ss).filter (fun x => decide (0 ≤ x))).length := by
      rw [(hp.filter _).length_eq]
      have h1 : decide (0 ≤ r.1) = true := by simp; omega
      have h2 : decide (0 ≤ r.2) = true := by simp; omega
      simp [List.filter_cons, h1, h2]
    rw [if_pos hS, if_pos hcount, descending_of_top_two _ rest2 r.1 r.2 q2 hp hr]
    simp
  · have hcount : ¬ 2 ≤ ((player_latencies ss).filter (fun x => decide (0 ≤ x))).length := by
      have e : ((player_latencies ss).filter (fun x => decide (0 ≤ x))).length =
          ((((-1 : Int) :: -1 :: player_latencies ss)).filter
            (fun x => decide (0 ≤ x))).length := by
        simp [List.filter_cons]
      rw [e, (q1.filter _).length_eq]
      have h2 : decide (0 ≤ r.2) = false := by simp; omega
      have h3 : rest.filter (fun x => decide (0 ≤ x)) = [] := by
        rw [List.filter_eq_nil_iff]
        intro x hx
        have := q3 x hx
        simp; omega
      rw [List.filter_cons, List.filter_cons, h2, h3]
      split <;> simp
    rw [if_neg hS, if_neg hcount]

/-- The total latency of the specification is `-1` or a sum of two non-negative values. -/
theorem spec_total_latency_ge (ss : List session) : -1 ≤ spec_total_latency ss := by
  obtain ⟨h1, h2⟩ := spec_total_latency_eq ss
  rw [h1]
  split_ifs with h
  · omega
  · exact le_refl _

/-- The value `get_total_latency` computes: the total latency of the specification in 32-bit
arithmetic. -/
theorem get_total_latency_eq (st : server) :
    get_total_latency st = wrap32 (spec_total_latency st.sessions) := by
  obtain ⟨h1, _⟩ := spec_total_latency_eq st.sessions
  rw [h1]
  unfold get_total_latency
  simp only [ge_iff_le]
  split_ifs
  · rfl
  · decide

theorem wrap32_of_range (x : Int) (h1 : -2147483648 ≤ x) (h2 : x < 2147483648) :
    wrap32 x = x := by
  unfold wrap32
  omega

/-- Without overflow `get_total_latency` returns the total latency of the specification. -/
theorem get_total_latency_exact (st : server)
    (h : spec_total_latency st.sessions < 2147483648) :
    get_total_latency st = spec_total_latency st.sessions := by
  rw [get_total_latency_eq]
  exact wrap32_of_range _ (by have := spec_total_latency_ge st.sessions; omega) h

theorem player_latencies_filter (ss : List session) :
    player_latencies (ss.filter (fun s => s.is_player)) = player_latencies ss := by
  unfold player_latencies
  rw [List.filter_filter]
  simp

theorem spec_total_latency_filter (ss : List session) :
    spec_total_latency (ss.filter (fun s => s.is_player)) = spec_total_latency ss := by
  unfold spec_total_latency
  rw [player_latencies_filter]

/-- C9 (amended): whenever the sum of the two largest minimum latencies of the players is
below `2^31`, `get_total_latency` returns the sum of the largest and the second-largest
minimum latency over the players, counted with multiplicity, when at least two players have
a non-negative minimum latency, and `-1` otherwise; and the sessions that are not players
never affect the result. -/
theorem get_total_latency_spec (st : server)
    (h : spec_total_latency st.sessions < 2147483648) :
    get_total_latency st = spec_total_latency st.sessions ∧
    get_total_latency { st with sessions := st.sessions.filter (fun s => s.is_player) } =
      get_total_latency st := by
  refine ⟨get_total_latency_exact st h, ?_⟩
  rw [get_total_latency_eq, get_total_latency_eq]
  simp only
  rw [spec_total_latency_filter]

theorem get_total_latency_spec_witness :
    spec_total_latency lobby_AB.sessions < 2147483648 ∧
    get_total_latency lobby_AB = spec_total_latency lobby_AB.sessions ∧
    get_total_latency
        { lobby_AB with sessions := lobby_AB.sessions.filter (fun s => s.is_player) } =
      get_total_latency lobby_AB :=
  ⟨by decide, get_total_latency_spec lobby_AB (by decide)⟩

/-- C9 (counterexample): with two players whose minimum latency is `2^30` ms each the sum of
the two largest is `2^31`, and `get_total_latency` returns `-2^31`. -/
theorem get_total_latency_overflow :
    spec_total_latency slow_lobby.sessions = 2147483648 ∧
    get_total_latency slow_lobby = -2147483648 := by
  decide

/-! ## Automatic lag control -/

theorem ceil_div_1000_eq (p : Int) : ceil_div_1000 p = ⌈(p : ℚ) / 1000⌉ := by
  unfold ceil_div_1000
  have h := Rat.floor_intCast_div_natCast (-p) 1000
  have h2 : ((-p : Int) : ℚ) / ((1000 : ℕ) : ℚ) = -((p : ℚ) / 1000) := by
    push_cast; ring
  rw [h2, Int.floor_neg] at h
  have h3 : ((1000 : ℕ) : ℤ) = 1000 := rfl
  rw [h3] at h
  omega

theorem send_lag_server (st : server) (v : Nat) :
    ∃ out, send_lag st (-1) v = some ({ st with lag := v }, out) := by
  obtain ⟨name, h⟩ := lag_sender_isSome st (-1) (Or.inl rfl)
  exact ⟨_, send_lag_eq st (-1) v name h⟩

/-- One tick of the automatic lag control when the product of total latency and frame rate
fits in 32 bits: the lag moves one frame towards the ideal lag, and nothing happens when it
is there. -/
theorem auto_adjust_lag_step (st : server) (hfps : 0 < get_fps st)
    (hlat : 0 ≤ get_total_latency st)
    (hprod : get_total_latency st * get_fps st < 2147483648) (hlag : st.lag ≤ 255) :
    (∃ st1 out, auto_adjust_lag st = some (st1, out) ∧ st1.sessions = st.sessions ∧
      (st1.lag : Int) =
        move_towards st.lag (ideal_lag (get_total_latency st) (get_fps st)) 1) ∧
    ((st.lag : Int) = ideal_lag (get_total_latency st) (get_fps st) →
      auto_adjust_lag st = some (st, [])) := by
  have hp0 : 0 ≤ get_total_latency st * get_fps st := mul_nonneg hlat (le_of_lt hfps)
  have hw : wrap32 (get_total_latency st * get_fps st) = get_total_latency st * get_fps st :=
    wrap32_of_range _ (by omega) hprod
  have hideal : ideal_lag (get_total_latency st) (get_fps st) =
      min (ceil_div_1000 (get_total_latency st * get_fps st)) 255 := by
    unfold ideal_lag; rw [ceil_div_1000_eq]
  have hc0 : 0 ≤ ceil_div_1000 (get_total_latency st * get_fps st) := by
    unfold ceil_div_1000; omega
  rw [hideal]
  unfold auto_adjust_lag
  simp only [not_le.2 hfps, not_lt.2 hlat, if_false, hw]
  have hi0 : 0 ≤ min (ceil_div_1000 (get_total_latency st * get_fps st)) 255 :=
    le_min hc0 (by decide)
  have hi1 : min (ceil_div_1000 (get_total_latency st * get_fps st)) 255 ≤ 255 :=
    min_le_right _ _
  generalize min (ceil_div_1000 (get_total_latency st * get_fps st)) 255 = ideal at hi0 hi1 ⊢
  constructor
  · by_cases h1 : ideal < (st.lag : Int)
    · rw [if_pos h1]
      obtain ⟨out, ho⟩ := send_lag_server st (to_u8 ((st.lag : Int) - 1))
      refine ⟨_, out, ho, rfl, ?_⟩
      simp only [move_towards, to_u8, min_def]
      split_ifs <;> omega
    · rw [if_neg h1]
      by_cases h2 : ideal > (st.lag : Int)
      · rw [if_pos h2]
        obtain ⟨out, ho⟩ := send_lag_server st (to_u8 ((st.lag : Int) + 1))
        refine ⟨_, out, ho, rfl, ?_⟩
        simp only [move_towards, to_u8, min_def]
        split_ifs <;> omega
      · rw [if_neg h2]
        refine ⟨st, [], rfl, rfl, ?_⟩
        simp only [move_towards, min_def]
        split_ifs <;> omega
  · intro he
    rw [if_neg (by omega), if_neg (by omega)]

/-- The frame rate and the total latency do not depend on the lag. -/
theorem get_fps_of_sessions (st st1 : server) (h : st1.sessions = st.sessions) :
    get_fps st1 = get_fps st ∧ get_total_latency st1 = get_total_latency st := by
  unfold get_fps get_total_latency
  rw [h]
  exact ⟨rfl, rfl⟩

theorem move_towards_succ (lag ideal : Int) (k : Nat) :
    move_towards (move_towards lag ideal 1) ideal k = move_towards lag ideal (k + 1) := by
  simp only [move_towards, min_def]
  split_ifs <;> push_cast at * <;> omega

theorem move_towards_range (lag ideal : Int) (k : Nat) (h0 : 0 ≤ lag) (h1 : lag ≤ 255)
    (h2 : 0 ≤ ideal) (h3 : ideal ≤ 255) :
    0 ≤ move_towards lag ideal k ∧ move_towards lag ideal k ≤ 255 := by
  simp only [move_towards, min_def]
  split_ifs <;> omega

theorem ideal_lag_range (total fps : Int) (h : 0 ≤ total * fps) :
    0 ≤ ideal_lag total fps ∧ ideal_lag total fps ≤ 255 := by
  unfold ideal_lag
  rw [← ceil_div_1000_eq]
  refine ⟨le_min (by unfold ceil_div_1000; omega) (by decide), min_le_right _ _⟩

/-- Repeated ticks when the product of total latency and frame rate fits in 32 bits: after
`k` ticks the lag has moved `min(k, |ideal - lag|)` frames towards the ideal lag. -/
theorem auto_adjust_lag_ticks_eq (k : Nat) :
    ∀ st : server, 0 < get_fps st → 0 ≤ get_total_latency st →
      get_total_latency st * get_fps st < 2147483648 → st.lag ≤ 255 →
      ∃ st1, auto_adjust_lag_ticks k st = some st1 ∧ st1.sessions = st.sessions ∧
        (st1.lag : Int) =
          move_towards st.lag (ideal_lag (get_total_latency st) (get_fps st)) k := by
  induction k with
  | zero =>
    intro st _ _ _ _
    refine ⟨st, rfl, rfl, ?_⟩
    simp only [move_towards, min_def]
    split_ifs <;> push_cast at * <;> omega
  | succ k ih =>
    intro st hfps hlat hprod hlag
    obtain ⟨⟨st1, out, h1, h2, h3⟩, _⟩ := auto_adjust_lag_step st hfps hlat hprod hlag
    obtain ⟨e1, e2⟩ := get_fps_of_sessions st st1 h2
    have hr := ideal_lag_range (get_total_latency st) (get_fps st)
      (mul_nonneg hlat (le_of_lt hfps))
    have hm := move_towards_range st.lag (ideal_lag (get_total_latency st) (get_fps st)) 1
      (by omega) (by omega) hr.1 hr.2
    obtain ⟨st2, g1, g2, g3⟩ := ih st1 (by rw [e1]; exact hfps) (by rw [e2]; exact hlat)
      (by rw [e1, e2]; exact hprod) (by omega)
    refine ⟨st2, ?_, g2.trans h2, ?_⟩
    · simp only [auto_adjust_lag_ticks, h1]
      exact g1
    · rw [g3, e1, e2, h3, move_towards_succ]


/-- The scenario of the specification: 60 frames per second, minimum latencies 50 ms and
30 ms, lag 0.  The total latency is 80, the lag goes 0, 1, 2, 3, 4, 5 over five ticks and
stays at 5, and the tick at 5 sends nothing. -/
theorem auto_adjust_lag_ticks_scenario :
    get_fps lobby_AB = 60 ∧ get_total_latency lobby_AB = 80 ∧
    (List.range 8).map (fun k => (auto_adjust_lag_ticks k lobby_AB).map (fun s => s.lag)) =
      [some 0, some 1, some 2, some 3, some 4, some 5, some 5, some 5] ∧
    (auto_adjust_lag ((auto_adjust_lag_ticks 5 lobby_AB).getD lobby_AB)).map (fun r => r.2) =
      some [] := by
  decide

/-- C7 (the code at the failing input): two players with minimum latency 1 ms report
1100000000 frames per second and the lag is 0.  The product `2 * 1100000000` does not fit
in 32 bits, the ideal lag comes out negative, and one `auto_adjust_lag` step sets the lag
to 255 and sends `LAG(255)`. -/
theorem auto_adjust_lag_wraps :
    get_fps overflow_lobby = 1100000000 ∧ get_total_latency overflow_lobby = 2 ∧
    overflow_lobby.lag = 0 ∧
    wrap32 (2 * 1100000000) = -2094967296 ∧
    (auto_adjust_lag overflow_lobby).map (fun r => (r.1.lag, r.2)) =
      some (255,
        [(0, packet.LAG 255),
         (0, packet.MESSAGE (-1) "The server set the lag to 255 (0 ms)"),
         (1, packet.LAG 255),
         (1, packet.MESSAGE (-1) "The server set the lag to 255 (0 ms)")]) := by
  decide

/-- C8 (the code at the failing input): for the same two players the ideal lag of the
specification is 255, so that the lag should go 0, 1, 2, 3; the code goes 0, 255, 254, 253. -/
theorem auto_adjust_lag_ticks_wrap :
    ideal_lag (get_total_latency overflow_lobby) (get_fps overflow_lobby) = 255 ∧
    (List.range 4).map (fun k => move_towards 0 255 k) = [0, 1, 2, 3] ∧
    (List.range 4).map
        (fun k => (auto_adjust_lag_ticks k overflow_lobby).map (fun s => s.lag)) =
      [some 0, some 255, some 254, some 253] := by
  refine ⟨?_, by decide, by decide⟩
  rw [ideal_lag, ← ceil_div_1000_eq]
  decide

/-! ## The lag notice and chat -/


/-- In a registry with distinct ids the lookup of an id finds the session that has it. -/
theorem find_session (ss : List session) (s : session) (k : Nat)
    (hnd : (ss.map (fun e => e.id)).Nodup) (hs : s ∈ ss) (hk : s.id = k) :
    ss.find? (fun e => decide (e.id = k)) = some s := by
  induction ss with
  | nil => simp at hs
  | cons x xs ih =>
    rw [List.map_cons, List.nodup_cons] at hnd
    rcases List.mem_cons.1 hs with rfl | hmem
    · simp [List.find?_cons, hk]
    · have hne : x.id ≠ k := fun h => hnd.1 (by
        rw [h, ← hk]; exact List.mem_map_of_mem (fun e => e.id) hmem)
      rw [List.find?_cons]
      simp only [hne, decide_False]
      exact ih hnd.2 hmem

theorem lag_message_eq (name : String) (v : Nat) (fps : Int) :
    lag_message name v fps = lag_notice name v fps := by
  unfold lag_message lag_notice
  by_cases h : 0 < fps
  · have e : Int.tdiv ((v : Int) * 1000) fps = (v : Int) * 1000 / fps :=
      Int.tdiv_eq_ediv (by positivity) (le_of_lt h)
    simp only [gt_iff_lt, h, if_true, e, String.append_assoc]
  · simp only [gt_iff_lt, h, if_false, String.append_empty]

/-- The frames `send_lag` sends, for a name its lookup succeeds with. -/
theorem send_lag_eq_notice (st : server) (id : Int) (v : Nat) (name : String)
    (h : lag_sender st id = some name) :
    send_lag st id v = some ({ st with lag := v },
      st.sessions.flatMap (fun it =>
        if it.id ≠ to_u32 id then
          [(it.id, packet.LAG v),
           (it.id, packet.MESSAGE (-1) (lag_notice name v (get_fps st)))]
        else [])) := by
  have h1 : lag_sender { st with lag := v } id = some name := h
  have h2 : get_fps { st with lag := v } = get_fps st := rfl
  unfold send_lag
  simp only [h1, h2, lag_message_eq]

theorem lag_sender_registered (st : server) (id : Int) (s : session)
    (hnd : (st.sessions.map (fun e => e.id)).Nodup) (hs : s ∈ st.sessions)
    (hid : s.id = to_u32 id) (hne : id ≠ -1) : lag_sender st id = some s.name := by
  unfold lag_sender
  rw [if_neg hne, find_session st.sessions s (to_u32 id) hnd hs hid]
  rfl

/-- C11: the chat notice `send_lag(id, v)` sends (with sender `-1`, after `LAG(v)`, to every
session whose id differs from `id`) is `"The server set the lag to <v>"` when `id = -1` and
`"<name> set the lag to <v>"` with the name of the registered session `id` otherwise, `v` in
decimal, followed by `" (<ms> ms)"` with `ms = v * 1000 / fps` exactly when
`get_fps() > 0`. -/
theorem send_lag_notice (st : server) (v : Nat) :
    send_lag st (-1) v = some ({ st with lag := v },
      st.sessions.flatMap (fun it =>
        if it.id ≠ to_u32 (-1) then
          [(it.id, packet.LAG v),
           (it.id, packet.MESSAGE (-1) (lag_notice "The server" v (get_fps st)))]
        else [])) ∧
    (∀ (id : Int) (s : session), (st.sessions.map (fun e => e.id)).Nodup → s ∈ st.sessions →
      s.id = to_u32 id → id ≠ -1 →
      send_lag st id v = some ({ st with lag := v },
        st.sessions.flatMap (fun it =>
          if it.id ≠ to_u32 id then
            [(it.id, packet.LAG v),
             (it.id, packet.MESSAGE (-1) (lag_notice s.name v (get_fps st)))]
          else []))) ∧
    (∀ name : String,
      (0 < get_fps st → lag_notice name v (get_fps st) =
        name ++ " set the lag to " ++ toString v ++
          (" (" ++ toString ((v : Int) * 1000 / get_fps st) ++ " ms)")) ∧
      (¬ 0 < get_fps st → lag_notice name v (get_fps st) =
        name ++ " set the lag to " ++ toString v)) := by
  refine ⟨send_lag_eq_notice st (-1) v _ rfl, ?_, ?_⟩
  · intro id s hnd hs hid hne
    exact send_lag_eq_notice st id v s.name (lag_sender_registered st id s hnd hs hid hne)
  · intro name
    constructor
    · intro h; simp only [lag_notice, h, if_true]
    · intro h; simp only [lag_notice, h, if_false, String.append_empty]

theorem send_lag_notice_witness :
    get_fps lobby_AB = 60 ∧
    lag_notice "A" 3 (get_fps lobby_AB) = "A set the lag to 3 (50 ms)" ∧
    send_lag lobby_AB 0 3 = some ({ lobby_AB with lag := 3 },
      lobby_AB.sessions.flatMap (fun it =>
        if it.id ≠ to_u32 0 then
          [(it.id, packet.LAG 3),
           (it.id, packet.MESSAGE (-1) (lag_notice "A" 3 (get_fps lobby_AB)))]
        else [])) ∧
    packets_to ((send_lag lobby_AB 0 3).getD (lobby_AB, [])).2 1 =
      [packet.LAG 3, packet.MESSAGE (-1) "A set the lag to 3 (50 ms)"] :=
  ⟨by decide, by decide,
    (send_lag_notice lobby_AB 3).2.1 0 (lobby_AB.sessions.getD 0 session_A) (by decide)
      (List.getElem?_mem (n := 0) rfl) rfl (by decide),
    by decide⟩



theorem send_message_snd (st : server) (id : Int) (message : String) :
    (send_message st id message).2 = st.sessions.flatMap (fun it =>
      if (decide (it.id ≠ to_u32 id)) = true then
        [packet.MESSAGE id message].map (fun p => (it.id, p))
      else []) := by
  unfold send_message
  simp only
  apply congrArg (fun f => st.sessions.flatMap f)
  funext it
  by_cases h : it.id = to_u32 id <;> simp [h]

/-- The fan-out of `send_message`: the state is unchanged, every registered session whose
id differs from the sender converted to `uint32_t` receives the message once, and the
session with that id receives nothing. -/
theorem send_message_fanout (st : server) (id : Int) (message : String) :
    (send_message st id message).1 = st ∧
    packets_to (send_message st id message).2 (to_u32 id) = [] ∧
    ((st.sessions.map (fun s => s.id)).Nodup → ∀ s ∈ st.sessions, s.id ≠ to_u32 id →
      packets_to (send_message st id message).2 s.id = [packet.MESSAGE id message]) := by
  refine ⟨rfl, ?_, ?_⟩
  · rw [send_message_snd]
    apply packets_to_flatMap_if_of_not_mem
    intro s _ h
    simpa using h
  · intro hnd s hs hne
    rw [send_message_snd,
      packets_to_flatMap_if _ _ (fun _ => [packet.MESSAGE id message]) hnd s hs]
    simp [hne]

/-- C12 (the code at the failing input): the registry holds A (id 0) and a session with id
4294967295.  `send_message(-1, "hello")` compares the keys with `-1` converted to
`uint32_t`, which is 4294967295: A receives the message and the other session does not. -/
theorem send_message_server_skips_last_id :
    last_id_lobby.sessions.map (fun s => s.id) = [0, 4294967295] ∧
    to_u32 (-1) = 4294967295 ∧
    (send_message last_id_lobby (-1) "hello").2 = [(0, packet.MESSAGE (-1) "hello")] ∧
    packets_to (send_message last_id_lobby (-1) "hello").2 4294967295 = [] := by
  decide

/-! ## Quit and start -/

theorem on_session_quit_of_find (st : server) (id : Nat) (s : session)
    (h : st.sessions.find? (fun e => decide (e.id = id)) = some s) :
    on_session_quit st id =
      if (s.is_player && st.started) = true then
        (close st, st.sessions.map (fun it => (it.id, packet.QUIT id)))
      else
        ({ st with sessions := st.sessions.filter (fun e => decide (e.id ≠ id)) },
          st.sessions.map (fun it => (it.id, packet.QUIT id))) := by
  unfold on_session_quit
  simp only [h]

theorem on_session_quit_of_not_registered (st : server) (id : Nat)
    (h : ∀ s ∈ st.sessions, s.id ≠ id) : on_session_quit st id = (st, []) := by
  have hf : st.sessions.find? (fun e => decide (e.id = id)) = none := by
    rw [List.find?_eq_none]
    intro x hx
    simpa using h x hx
  unfold on_session_quit
  simp only [hf]

theorem close_close (st : server) : close (close st) = close st := by
  unfold close
  simp [List.map_map, Function.comp_def]

theorem close_find (st : server) (id : Nat) (s : session)
    (h : st.sessions.find? (fun e => decide (e.id = id)) = some s) :
    (close st).sessions.find? (fun e => decide (e.id = id)) = some { s with closed := true } := by
  unfold close
  simp only
  rw [List.find?_map]
  have : ((fun e : session => decide (e.id = id)) ∘ fun s : session => { s with closed := true })
      = fun e => decide (e.id = id) := rfl
  rw [this, h]
  rfl

theorem find_filter_ne (ss : List session) (id : Nat) :
    (ss.filter (fun e => decide (e.id ≠ id))).find? (fun e => decide (e.id = id)) = none := by
  rw [List.find?_eq_none]
  intro x hx
  have := (List.mem_filter.1 hx).2
  simpa using this

/-- C13 (amended): with distinct ids in the registry, `on_session_quit` for an id that is not
registered sends nothing and returns the state it was given; a second call right after a
first one sends nothing and changes nothing unless the game has started and the session is a
player; and in that case the first call leaves the session in the registry, and the second
call sends `QUIT` to every registered session once more and leaves the state as the first
call left it. -/
theorem on_session_quit_twice (st : server) (id : Nat)
    (hnd : (st.sessions.map (fun e => e.id)).Nodup) :
    ((∀ s ∈ st.sessions, s.id ≠ id) → on_session_quit st id = (st, [])) ∧
    (∀ s ∈ st.sessions, s.id = id → (s.is_player = false ∨ st.started = false) →
      on_session_quit (on_session_quit st id).1 id = ((on_session_quit st id).1, [])) ∧
    (∀ s ∈ st.sessions, s.id = id → s.is_player = true → st.started = true →
      on_session_quit st id =
        (close st, st.sessions.map (fun it => (it.id, packet.QUIT id))) ∧
      on_session_quit (on_session_quit st id).1 id =
        ((on_session_quit st id).1, st.sessions.map (fun it => (it.id, packet.QUIT id)))) := by
  refine ⟨on_session_quit_of_not_registered st id, ?_, ?_⟩
  · intro s hs hid hc
    have hf := find_session st.sessions s id hnd hs hid
    have hb : (s.is_player && st.started) = false := by
      rcases hc with h | h <;> simp [h]
    rw [on_session_quit_of_find st id s hf, hb]
    simp only [Bool.false_eq_true, if_false]
    unfold on_session_quit
    simp only [find_filter_ne]
  · intro s hs hid hp hst
    have hf := find_session st.sessions s id hnd hs hid
    have hb : (s.is_player && st.started) = true := by simp [hp, hst]
    have h1 : on_session_quit st id =
        (close st, st.sessions.map (fun it => (it.id, packet.QUIT id))) := by
      rw [on_session_quit_of_find st id s hf, if_pos hb]
    refine ⟨h1, ?_⟩
    rw [h1]
    simp only
    rw [on_session_quit_of_find (close st) id _ (close_find st id s hf)]
    have hb2 : (({ s with closed := true } : session).is_player && (close st).started) = true := hb
    rw [if_pos hb2, close_close]
    simp [close, List.map_map, Function.comp_def]

theorem on_session_quit_twice_witness :
    (lobby_AB.sessions.map (fun e => e.id)).Nodup ∧
    on_session_quit (on_session_quit lobby_AB 0).1 0 = ((on_session_quit lobby_AB 0).1, []) :=
  ⟨by decide,
    (on_session_quit_twice lobby_AB 0 (by decide)).2.1 (lobby_AB.sessions.getD 0 session_A)
      (List.getElem?_mem (n := 0) rfl) rfl (Or.inr rfl)⟩

/-- C13 (counterexample): A and B are players and the game has started.  The first
`on_session_quit` for A sends `QUIT(0)` to A and B, and so does a second call right after
it. -/
theorem on_session_quit_twice_started :
    started_AB.started = true ∧
    (on_session_quit started_AB 0).2 = [(0, packet.QUIT 0), (1, packet.QUIT 0)] ∧
    (on_session_quit (on_session_quit started_AB 0).1 0).2 =
      [(0, packet.QUIT 0), (1, packet.QUIT 0)] := by
  decide

/-- C14: when the game has started and a registered session that is a player quits,
`on_session_quit` sends `QUIT(id)` to every registered session and ends in `close()`: the
acceptor is closed, the timer cancelled, every session of the registry closed, and the
registry still holds the same ids, the one of the quitting session among them. -/
theorem on_session_quit_player_started (st : server) (id : Nat) (s : session)
    (hnd : (st.sessions.map (fun e => e.id)).Nodup) (hs : s ∈ st.sessions) (hid : s.id = id)
    (hp : s.is_player = true) (hst : st.started = true) :
    on_session_quit st id = (close st, st.sessions.map (fun it => (it.id, packet.QUIT id))) ∧
    (close st).acceptor_open = false ∧ (close st).timer_cancelled = true ∧
    (∀ e ∈ (close st).sessions, e.closed = true) ∧
    (close st).sessions.map (fun e => e.id) = st.sessions.map (fun e => e.id) ∧
    id ∈ (on_session_quit st id).1.sessions.map (fun e => e.id) := by
  have hf := find_session st.sessions s id hnd hs hid
  have hb : (s.is_player && st.started) = true := by simp [hp, hst]
  have h1 : on_session_quit st id =
      (close st, st.sessions.map (fun it => (it.id, packet.QUIT id))) := by
    rw [on_session_quit_of_find st id s hf, if_pos hb]
  have hids : (close st).sessions.map (fun e => e.id) = st.sessions.map (fun e => e.id) := by
    simp [close, List.map_map, Function.comp_def]
  refine ⟨h1, rfl, rfl, ?_, hids, ?_⟩
  · intro e he
    simp only [close, List.mem_map] at he
    obtain ⟨a, _, rfl⟩ := he
    rfl
  · rw [h1]
    simp only
    rw [hids, ← hid]
    exact List.mem_map_of_mem (fun e => e.id) hs

theorem on_session_quit_player_started_witness :
    (started_AB.sessions.map (fun e => e.id)).Nodup ∧ started_AB.started = true ∧
    on_session_quit started_AB 0 =
      (close started_AB, started_AB.sessions.map (fun it => (it.id, packet.QUIT 0))) ∧
    (close started_AB).acceptor_open = false ∧ (close started_AB).timer_cancelled = true ∧
    (∀ e ∈ (close started_AB).sessions, e.closed = true) ∧
    (close started_AB).sessions.map (fun e => e.id) = started_AB.sessions.map (fun e => e.id) ∧
    0 ∈ (on_session_quit started_AB 0).1.sessions.map (fun e => e.id) :=
  ⟨by decide, rfl,
    on_session_quit_player_started started_AB 0 (started_AB.sessions.getD 0 session_A)
      (by decide) (List.getElem?_mem (n := 0) rfl) rfl rfl rfl⟩


/-- C20: when the game has started and a registered session that is not a player quits,
`on_session_quit` sends `QUIT(id)` to the registered sessions and erases that session from
the registry, and nothing else: the other sessions stay as they are, maps included,
`netplay_controllers`, the lag and `started` (and every other field of the server) keep
their values, and no `NETPLAY_CONTROLLERS` or `CONTROLLERS` frame is sent. -/
theorem on_session_quit_observer_started (st : server) (id : Nat) (s : session)
    (hnd : (st.sessions.map (fun e => e.id)).Nodup) (hs : s ∈ st.sessions) (hid : s.id = id)
    (hp : s.is_player = false) (hst : st.started = true) :
    on_session_quit st id =
      ({ st with sessions := st.sessions.filter (fun e => decide (e.id ≠ id)) },
        st.sessions.map (fun it => (it.id, packet.QUIT id))) ∧
    (∀ t : session, t ∈ (on_session_quit st id).1.sessions ↔ t ∈ st.sessions ∧ t ≠ s) ∧
    (on_session_quit st id).1.netplay_controllers = st.netplay_controllers ∧
    (on_session_quit st id).1.lag = st.lag ∧
    (on_session_quit st id).1.started = true ∧
    (∀ e ∈ (on_session_quit st id).2,
      is_controllers e.2 = false ∧ is_netplay_controllers e.2 = false) := by
  have hf := find_session st.sessions s id hnd hs hid
  have hb : ¬ (s.is_player && st.started) = true := by simp [hp]
  have h1 : on_session_quit st id =
      ({ st with sessions := st.sessions.filter (fun e => decide (e.id ≠ id)) },
        st.sessions.map (fun it => (it.id, packet.QUIT id))) := by
    rw [on_session_quit_of_find st id s hf, if_neg hb]
  refine ⟨h1, ?_, ?_, ?_, ?_, ?_⟩
  · intro t
    rw [h1]
    simp only [List.mem_filter, decide_eq_true_eq]
    constructor
    · rintro ⟨ht, hne⟩
      exact ⟨ht, fun h => hne (h ▸ hid)⟩
    · rintro ⟨ht, hne⟩
      refine ⟨ht, fun h => hne ?_⟩
      have e1 := find_session st.sessions t id hnd ht h
      rw [hf] at e1
      exact (Option.some.inj e1).symm
  · rw [h1]
  · rw [h1]
  · rw [h1]; exact hst
  · intro e he
    rw [h1] at he
    simp only [List.mem_map] at he
    obtain ⟨a, _, rfl⟩ := he
    exact ⟨rfl, rfl⟩

theorem on_session_quit_observer_started_witness :
    (started_ABO.sessions.map (fun e => e.id)).Nodup ∧ started_ABO.started = true ∧
    (started_ABO.sessions.getD 2 session_O).is_player = false ∧
    on_session_quit started_ABO 3 =
      ({ started_ABO with
          sessions := started_ABO.sessions.filter (fun e => decide (e.id ≠ 3)) },
        started_ABO.sessions.map (fun it => (it.id, packet.QUIT 3))) ∧
    (on_session_quit started_ABO 3).1.sessions.map (fun e => e.id) = [0, 1] :=
  ⟨by decide, rfl, rfl,
    (on_session_quit_observer_started started_ABO 3 (started_ABO.sessions.getD 2 session_O)
      (by decide) (List.getElem?_mem (n := 2) rfl) rfl rfl rfl).1,
    by decide⟩


/-- C16: `send_start_game` on a server that has not started sets `started`, closes the
acceptor, changes nothing else and sends one `START` to every registered session; on a
started server it sends nothing and returns the state it was given; hence a second call
right after a first one sends nothing and changes nothing. -/
theorem send_start_game_once (st : server) :
    (st.started = false →
      send_start_game st =
        ({ st with started := true, acceptor_open := false },
          st.sessions.map (fun it => (it.id, packet.START))) ∧
      ((st.sessions.map (fun e => e.id)).Nodup → ∀ s ∈ st.sessions,
        packets_to (send_start_game st).2 s.id = [packet.START])) ∧
    (st.started = true → send_start_game st = (st, [])) ∧
    send_start_game (send_start_game st).1 = ((send_start_game st).1, []) ∧
    (send_start_game st).2 ++ (send_start_game (send_start_game st).1).2 =
      (send_start_game st).2 := by
  have h0 : st.started = false →
      send_start_game st =
        ({ st with started := true, acceptor_open := false },
          st.sessions.map (fun it => (it.id, packet.START))) := by
    intro h; unfold send_start_game; simp [h]
  have h1 : st.started = true → send_start_game st = (st, []) := by
    intro h; unfold send_start_game; simp [h]
  have h2 : send_start_game (send_start_game st).1 = ((send_start_game st).1, []) := by
    cases hs : st.started with
    | false =>
      rw [h0 hs]
      unfold send_start_game
      simp
    | true =>
      rw [h1 hs]
      exact h1 hs
  refine ⟨fun h => ⟨h0 h, fun hnd s hs => ?_⟩, h1, h2, ?_⟩
  · rw [h0 h]
    exact packets_to_map_of_mem st.sessions packet.START s hnd hs
  · rw [h2]; simp

theorem send_start_game_once_witness :
    lobby_AB.started = false ∧
    send_start_game lobby_AB =
      ({ lobby_AB with started := true, acceptor_open := false },
        lobby_AB.sessions.map (fun it => (it.id, packet.START))) ∧
    packets_to (send_start_game lobby_AB).2 1 = [packet.START] ∧
    send_start_game started_AB = (started_AB, []) :=
  ⟨rfl, ((send_start_game_once lobby_AB).1 rfl).1,
    ((send_start_game_once lobby_AB).1 rfl).2 (by decide) (lobby_AB.sessions.getD 1 session_B)
      (List.getElem?_mem (n := 1) rfl),
    (send_start_game_once started_AB).2.1 rfl⟩


/-! ## The reverse map and the allocation as a function -/
theorem insert_netplay_to_local (m : controller_map) (l : Fin 4) (v : Int) (k : Fin 4) :
    (m.insert l v).netplay_to_local k =
      if 0 ≤ v ∧ k.val = v.toNat then (l.val : Int) else m.netplay_to_local k := by
  unfold controller_map.insert
  by_cases h : 0 ≤ v
  · simp only [h, if_true, set4_apply, true_and]
  · simp only [h, if_false, false_and]

/-- The inner loop does not write `netplay_to_local` below the starting port. -/
theorem alloc_fold_reverse_frame (cs : Fin 4 → controller) (ls : List (Fin 4)) :
    ∀ (x : alloc × controller_map) (n : Fin 4), n.val < x.1.netplay_port →
      (ls.foldl (alloc_local cs) x).2.netplay_to_local n = x.2.netplay_to_local n := by
  induction ls with
  | nil => intro x n _; rfl
  | cons k ls ih =>
    intro x n hn
    rw [List.foldl_cons]
    have h := ih (alloc_local cs x k) n
    rw [alloc_local_eq] at h ⊢
    split_ifs at h ⊢ with hc
    · simp only at h
      rw [h (by omega), insert_netplay_to_local, if_neg]
      intro hk
      have := hk.2
      simp at this
      omega
    · rw [h hn, insert_netplay_to_local, if_neg]
      intro hk
      have := hk.1
      omega

/-- After the inner loop a non-negative entry of `local_to_netplay` is undone by
`netplay_to_local`. -/
theorem alloc_fold_reverse (cs : Fin 4 → controller) (ls : List (Fin 4)) :
    ∀ (x : alloc × controller_map), ls.Nodup → ∀ l ∈ ls,
      0 ≤ (ls.foldl (alloc_local cs) x).2.local_to_netplay l →
      ∃ k : Fin 4, (k.val : Int) = (ls.foldl (alloc_local cs) x).2.local_to_netplay l ∧
        (ls.foldl (alloc_local cs) x).2.netplay_to_local k = (l.val : Int) := by
  induction ls with
  | nil => intro x _ l hl; simp at hl
  | cons k ls ih =>
    intro x hnd l hl hv
    rw [List.nodup_cons] at hnd
    rw [List.foldl_cons] at hv ⊢
    rcases List.mem_cons.1 hl with rfl | hmem
    · rw [alloc_fold_map_of_not_mem cs ls _ l hnd.1] at hv ⊢
      have hf := alloc_fold_reverse_frame cs ls (alloc_local cs x l)
      rw [alloc_local_eq] at hv hf ⊢
      split_ifs at hv hf ⊢ with hc
      · simp only [insert_local_to_netplay, if_true] at hv hf ⊢
        refine ⟨⟨x.1.netplay_port, hc.2⟩, rfl, ?_⟩
        rw [hf _ (by simp), insert_netplay_to_local]
        simp
      · simp [insert_local_to_netplay] at hv
    · exact ih (alloc_local cs x k) hnd.2 l hmem hv

/-- An entry of `netplay_to_local` whose netplay port the loop assigns to no local port
keeps its content. -/
theorem alloc_fold_reverse_unassigned (cs : Fin 4 → controller) (ls : List (Fin 4)) :
    ∀ (x : alloc × controller_map), ls.Nodup → ∀ n : Fin 4,
      (∀ l ∈ ls, (ls.foldl (alloc_local cs) x).2.local_to_netplay l ≠ (n.val : Int)) →
      (ls.foldl (alloc_local cs) x).2.netplay_to_local n = x.2.netplay_to_local n := by
  induction ls with
  | nil => intro x _ n _; rfl
  | cons k ls ih =>
    intro x hnd n hn
    rw [List.nodup_cons] at hnd
    rw [List.foldl_cons] at hn ⊢
    have hk := hn k (List.mem_cons_self _ _)
    rw [alloc_fold_map_of_not_mem cs ls _ k hnd.1] at hk
    rw [ih (alloc_local cs x k) hnd.2 n (fun l hl => hn l (List.mem_cons_of_mem _ hl))]
    rw [alloc_local_eq] at hk ⊢
    split_ifs at hk ⊢ with hc
    · simp only [insert_local_to_netplay, if_true] at hk
      rw [insert_netplay_to_local, if_neg]
      intro h
      have := h.2
      simp at this
      exact hk (by exact_mod_cast this.symm)
    · rw [insert_netplay_to_local, if_neg]
      intro h
      have := h.1
      omega

/-- The allocation state after the inner loop does not depend on the map it starts
from. -/
theorem alloc_fold_fst_congr (cs : Fin 4 → controller) (ls : List (Fin 4)) :
    ∀ (a : alloc) (m1 m2 : controller_map),
      (ls.foldl (alloc_local cs) (a, m1)).1 = (ls.foldl (alloc_local cs) (a, m2)).1 := by
  induction ls with
  | nil => intro a m1 m2; rfl
  | cons k ls ih =>
    intro a m1 m2
    rw [List.foldl_cons, List.foldl_cons, alloc_local_eq, alloc_local_eq]
    split_ifs with hc
    · exact ih _ _ _
    · exact ih _ _ _

theorem alloc_session_reverse (a : alloc) (s : session) (l : Fin 4)
    (h : 0 ≤ (alloc_session a s).2.my_controller_map.local_to_netplay l) :
    ∃ k : Fin 4, (k.val : Int) = (alloc_session a s).2.my_controller_map.local_to_netplay l ∧
      (alloc_session a s).2.my_controller_map.netplay_to_local k = (l.val : Int) :=
  alloc_fold_reverse s.controllers ports (a, s.my_controller_map) ports_nodup l (mem_ports l) h

theorem alloc_session_reverse_unassigned (a : alloc) (s : session) (n : Fin 4)
    (h : ∀ l : Fin 4, (alloc_session a s).2.my_controller_map.local_to_netplay l ≠ (n.val : Int)) :
    (alloc_session a s).2.my_controller_map.netplay_to_local n =
      s.my_controller_map.netplay_to_local n :=
  alloc_fold_reverse_unassigned s.controllers ports (a, s.my_controller_map) ports_nodup n
    (fun l _ => h l)

theorem alloc_sessions_mem (ss : List session) :
    ∀ (a : alloc) (t : session), t ∈ (alloc_sessions a ss).2 →
      ∃ (b : alloc) (s : session), s ∈ ss ∧ t = (alloc_session b s).2 := by
  induction ss with
  | nil => intro a t ht; simp [alloc_sessions_nil] at ht
  | cons s rest ih =>
    intro a t ht
    rw [alloc_sessions_cons_snd] at ht
    rcases List.mem_cons.1 ht with rfl | hmem
    · exact ⟨a, s, List.mem_cons_self _ _, rfl⟩
    · obtain ⟨b, s1, h1, h2⟩ := ih _ t hmem
      exact ⟨b, s1, List.mem_cons_of_mem _ h1, h2⟩

/-- C17: with `controller_map::insert` as the specification gives it, after
`update_controllers`, whatever the maps held before, a non-negative entry `n` of a session's
`local_to_netplay` at local port `l` is a netplay port whose `netplay_to_local` entry is
`l`. -/
theorem update_controllers_reverse (st : server) (s : session)
    (hs : s ∈ (update_controllers st).1.sessions) (l : Fin 4) (n : Int)
    (hn : s.my_controller_map.local_to_netplay l = n) (h0 : 0 ≤ n) :
    ∃ k : Fin 4, (k.val : Int) = n ∧ s.my_controller_map.netplay_to_local k = (l.val : Int) := by
  rw [update_controllers_fst] at hs
  obtain ⟨b, s0, _, rfl⟩ := alloc_sessions_mem st.sessions _ s hs
  subst hn
  exact alloc_session_reverse b s0 l h0

theorem update_controllers_reverse_witness :
    (1 : Int) ≥ 0 ∧ ∃ k : Fin 4, (k.val : Int) = 1 ∧
      (lobby_AB.sessions.getD 1 session_B).my_controller_map.netplay_to_local k =
        (((0 : Fin 4).val : Nat) : Int) :=
  ⟨by decide,
    update_controllers_reverse (lobby [session_A, session_B])
      (lobby_AB.sessions.getD 1 session_B) (List.getElem?_mem (n := 1) rfl) 0 1 rfl
      (by decide)⟩

/-- The allocation over two registries that hold the same sessions up to their controller
maps. -/
theorem alloc_sessions_congr (ss1 ss2 : List session) (h : List.Forall₂ same_session ss1 ss2) :
    ∀ a : alloc, (alloc_sessions a ss1).1 = (alloc_sessions a ss2).1 ∧
      List.Forall₂ (fun p q => same_session p q ∧
          p.my_controller_map.local_to_netplay = q.my_controller_map.local_to_netplay ∧
          ∀ n : Fin 4, (∃ l : Fin 4, p.my_controller_map.local_to_netplay l = (n.val : Int)) →
            p.my_controller_map.netplay_to_local n = q.my_controller_map.netplay_to_local n)
        (alloc_sessions a ss1).2 (alloc_sessions a ss2).2 := by
  induction h with
  | nil => intro a; exact ⟨rfl, List.Forall₂.nil⟩
  | @cons s1 s2 r1 r2 hs _ ih =>
    intro a
    obtain ⟨m, rfl⟩ := hs
    have e1 : (alloc_session a { s1 with my_controller_map := m }).1 = (alloc_session a s1).1 :=
      alloc_fold_fst_congr s1.controllers ports a m s1.my_controller_map
    have e2 : (alloc_session a s1).2.my_controller_map.local_to_netplay =
        (alloc_session a { s1 with my_controller_map := m }).2.my_controller_map.local_to_netplay
        := by
      funext l
      rw [alloc_session_map, alloc_session_map]
      rfl
    rw [alloc_sessions_cons_fst, alloc_sessions_cons_fst, alloc_sessions_cons_snd,
      alloc_sessions_cons_snd, e1]
    refine ⟨(ih _).1, List.Forall₂.cons ⟨⟨_, rfl⟩, e2, ?_⟩ (ih _).2⟩
    rintro n ⟨l, hl⟩
    obtain ⟨k1, a1, a2⟩ := alloc_session_reverse a s1 l (by rw [hl]; exact Int.natCast_nonneg _)
    obtain ⟨k2, b1, b2⟩ := alloc_session_reverse a { s1 with my_controller_map := m } l
      (by rw [← e2, hl]; exact Int.natCast_nonneg _)
    rw [← e2] at b1
    have hk1 : k1 = n := Fin.ext (by have := a1.trans hl; exact_mod_cast this)
    have hk2 : k2 = n := Fin.ext (by have := b1.trans hl; exact_mod_cast this)
    rw [← hk1, a2, hk1, ← hk2, b2]

theorem alloc_sessions_reverse_unassigned (ss : List session) :
    ∀ a : alloc, List.Forall₂ (fun s t => ∀ n : Fin 4,
        (∀ l : Fin 4, t.my_controller_map.local_to_netplay l ≠ (n.val : Int)) →
        t.my_controller_map.netplay_to_local n = s.my_controller_map.netplay_to_local n)
      ss (alloc_sessions a ss).2 := by
  induction ss with
  | nil => intro a; exact List.Forall₂.nil
  | cons s rest ih =>
    intro a
    rw [alloc_sessions_cons_snd]
    exact List.Forall₂.cons (fun n hn => alloc_session_reverse_unassigned a s n hn) (ih _)

/-- C19 (amended): for two server states whose registries hold the same sessions in the same
order up to the contents of the controller maps, and whatever their `netplay_controllers`
are, `update_controllers` produces the same `netplay_controllers`, the same
`local_to_netplay` of every session, and the same `netplay_to_local` entry at every netplay
port assigned to the session; an entry of `netplay_to_local` at a netplay port that is not
assigned to the session keeps the content it had before the call. -/
theorem update_controllers_pure (st1 st2 : server)
    (h : List.Forall₂ same_session st1.sessions st2.sessions) :
    (update_controllers st1).1.netplay_controllers =
      (update_controllers st2).1.netplay_controllers ∧
    List.Forall₂ (fun p q => same_session p q ∧
        p.my_controller_map.local_to_netplay = q.my_controller_map.local_to_netplay ∧
        ∀ n : Fin 4, (∃ l : Fin 4, p.my_controller_map.local_to_netplay l = (n.val : Int)) →
          p.my_controller_map.netplay_to_local n = q.my_controller_map.netplay_to_local n)
      (update_controllers st1).1.sessions (update_controllers st2).1.sessions ∧
    List.Forall₂ (fun s t => ∀ n : Fin 4,
        (∀ l : Fin 4, t.my_controller_map.local_to_netplay l ≠ (n.val : Int)) →
        t.my_controller_map.netplay_to_local n = s.my_controller_map.netplay_to_local n)
      st1.sessions (update_controllers st1).1.sessions := by
  have hc := alloc_sessions_congr st1.sessions st2.sessions h
    { netplay_controllers := fun _ => controller.absent, netplay_port := 0 }
  rw [update_controllers_fst, update_controllers_fst]
  exact ⟨congrArg alloc.netplay_controllers hc.1, hc.2,
    alloc_sessions_reverse_unassigned st1.sessions _⟩

theorem update_controllers_pure_witness :
    List.Forall₂ same_session (lobby [session_A]).sessions (lobby [session_A_stale]).sessions ∧
    (update_controllers (lobby [session_A])).1.netplay_controllers =
      (update_controllers (lobby [session_A_stale])).1.netplay_controllers ∧
    (update_controllers (lobby [session_A])).1.sessions.map
        (fun s => ports.map s.my_controller_map.local_to_netplay) =
      (update_controllers (lobby [session_A_stale])).1.sessions.map
        (fun s => ports.map s.my_controller_map.local_to_netplay) :=
  ⟨List.Forall₂.cons ⟨stale_map, rfl⟩ List.Forall₂.nil,
    (update_controllers_pure (lobby [session_A]) (lobby [session_A_stale])
      (List.Forall₂.cons ⟨stale_map, rfl⟩ List.Forall₂.nil)).1,
    by decide⟩

/-- C19 (counterexample): the registry holds A alone, once with an unmapped controller map
and once with the map of an earlier allocation in which local port 0 had netplay port 2.
After `update_controllers` both have `local_to_netplay = [0, -1, -1, -1]`, and
`netplay_to_local` is `[0, -1, -1, -1]` in the first state and `[0, -1, 0, -1]` in the
second. -/
theorem update_controllers_keeps_stale_reverse :
    (update_controllers (lobby [session_A])).1.sessions.map
        (fun s => ports.map s.my_controller_map.local_to_netplay) = [[0, -1, -1, -1]] ∧
    (update_controllers (lobby [session_A_stale])).1.sessions.map
        (fun s => ports.map s.my_controller_map.local_to_netplay) = [[0, -1, -1, -1]] ∧
    (update_controllers (lobby [session_A])).1.sessions.map
        (fun s => ports.map s.my_controller_map.netplay_to_local) = [[0, -1, -1, -1]] ∧
    (update_controllers (lobby [session_A_stale])).1.sessions.map
        (fun s => ports.map s.my_controller_map.netplay_to_local) = [[0, -1, 0, -1]] := by
  decide


/-! ## Joining -/
theorem packets_to_map_const (ss : List session) (f : session → packet) (k r : Nat) :
    packets_to (ss.map (fun it => (k, f it))) r = if k = r then ss.map f else [] := by
  unfold packets_to
  by_cases h : k = r
  · simp [h, List.filter_map, Function.comp_def]
  · simp [h, List.filter_map, Function.comp_def]

theorem registry_insert_new (ss : List session) (s : session) (pos : Nat)
    (h : ∀ e ∈ ss, e.id ≠ s.id) :
    registry_insert ss s pos = ss.take pos ++ s :: ss.drop pos := by
  unfold registry_insert
  rw [if_neg]
  simp only [List.any_eq_true, decide_eq_true_eq, not_exists, not_and]
  exact h

/-- C18: `on_session_joined(new)` for a session that is not yet registered, in a registry
with distinct ids, ends in the state of `update_controllers()` over the registry with `new`
inserted.  Every previously registered session receives `JOIN(new.id, new.name)` once,
followed by the frames of that `update_controllers()`.  The session `new` receives, in this
order, one `JOIN(e.id, e.name)` for every session `e` of the new registry (itself included)
in iteration order, `PING`, `LAG(lag)`, the message `"The server set the lag to <lag>"` with
sender `-1`, and then the frames of `update_controllers()`. -/
theorem on_session_joined_frames (st : server) (new : session) (now pos : Nat)
    (hnd : (st.sessions.map (fun e => e.id)).Nodup)
    (hnew : ∀ e ∈ st.sessions, e.id ≠ new.id) :
    (on_session_joined st new now pos).1 =
      (update_controllers
        { st with sessions := st.sessions.take pos ++ new :: st.sessions.drop pos }).1 ∧
    (∀ e ∈ st.sessions,
      packets_to (on_session_joined st new now pos).2 e.id =
        packet.JOIN new.id new.name ::
          packets_to (update_controllers
            { st with sessions := st.sessions.take pos ++ new :: st.sessions.drop pos }).2
            e.id) ∧
    packets_to (on_session_joined st new now pos).2 new.id =
      (st.sessions.take pos ++ new :: st.sessions.drop pos).map
          (fun e => packet.JOIN e.id e.name) ++
        [packet.PING now, packet.LAG st.lag,
          packet.MESSAGE (-1) ("The server set the lag to " ++ toString st.lag)] ++
        packets_to (update_controllers
          { st with sessions := st.sessions.take pos ++ new :: st.sessions.drop pos }).2
          new.id := by
  have hins := registry_insert_new st.sessions new pos hnew
  have hnot : ∀ r : Nat, (∀ e ∈ st.sessions, e.id ≠ r) →
      packets_to (st.sessions.map (fun it => (it.id, packet.JOIN new.id new.name))) r = [] := by
    intro r hr
    rw [packets_to_map]
    have : r ∉ st.sessions.map (fun s => s.id) := by
      intro hm
      obtain ⟨e, he, rfl⟩ := List.mem_map.1 hm
      exact hr e he rfl
    rw [List.count_eq_zero_of_not_mem this]
    rfl
  refine ⟨?_, ?_, ?_⟩
  · unfold on_session_joined
    simp only [hins]
  · intro e he
    unfold on_session_joined
    simp only [hins, packets_to_append, packets_to_map_const, packets_to_cons, packets_to_nil,
      if_neg (hnew e he).symm, List.append_nil]
    rw [packets_to_map_of_mem st.sessions _ e hnd he]
    rfl
  · unfold on_session_joined
    simp only [hins, packets_to_append, packets_to_map_const, packets_to_cons, packets_to_nil,
      if_true]
    rw [hnot new.id hnew]
    simp

theorem on_session_joined_frames_witness :
    ((lobby [session_A]).sessions.map (fun e => e.id)).Nodup ∧
    (∀ e ∈ (lobby [session_A]).sessions, e.id ≠ session_B.id) ∧
    packets_to (on_session_joined (lobby [session_A]) session_B 20 1).2 session_B.id =
      ((lobby [session_A]).sessions.take 1 ++
          session_B :: (lobby [session_A]).sessions.drop 1).map
          (fun e => packet.JOIN e.id e.name) ++
        [packet.PING 20, packet.LAG (lobby [session_A]).lag,
          packet.MESSAGE (-1)
            ("The server set the lag to " ++ toString (lobby [session_A]).lag)] ++
        packets_to (update_controllers
          { lobby [session_A] with
            sessions := (lobby [session_A]).sessions.take 1 ++
              session_B :: (lobby [session_A]).sessions.drop 1 }).2
          session_B.id ∧
    (packets_to (on_session_joined (lobby [session_A]) session_B 20 1).2 1).take 5 =
      [packet.JOIN 0 "A", packet.JOIN 1 "B", packet.PING 20, packet.LAG 0,
        packet.MESSAGE (-1) "The server set the lag to 0"] :=
  ⟨by decide, by decide,
    (on_session_joined_frames (lobby [session_A]) session_B 20 1 (by decide) (by decide)).2.2,
    by decide⟩

/-- C15 (the code at the failing input): three connections are accepted, A and B join and
the game is started; the registry holds the ids 0 and 1, `started` is true and the acceptor
is closed.  The third session then completes its handshake: `on_session_joined` does not
look at `started`, and the registry holds the ids 0, 1 and 2. -/
theorem on_session_joined_after_start :
    started_before_late_join.started = true ∧
    started_before_late_join.acceptor_open = false ∧
    started_before_late_join.sessions.map (fun e => e.id) = [0, 1] ∧
    (on_session_joined started_before_late_join session_C 30 2).1.started = true ∧
    (on_session_joined started_before_late_join session_C 30 2).1.sessions.map
        (fun e => e.id) = [0, 1, 2] ∧
    ports.map started_before_late_join.netplay_controllers =
      [session_A.controllers 0, session_B.controllers 0, controller.absent,
        controller.absent] ∧
    ports.map (on_session_joined started_before_late_join session_C 30 2).1.netplay_controllers =
      [session_A.controllers 0, session_B.controllers 0, session_C.controllers 0,
        controller.absent] := by
  decide

theorem send_lag_sessions (st : server) (id : Int) (v : Nat) (r : server × outbox)
    (h : send_lag st id v = some r) : r.1.sessions = st.sessions := by
  unfold send_lag at h
  cases hl : lag_sender { st with lag := v } id with
  | none => simp [hl] at h
  | some name =>
    simp only [hl, Option.some.injEq] at h
    rw [← h]

theorem auto_adjust_lag_sessions (st : server) (r : server × outbox)
    (h : auto_adjust_lag st = some r) : r.1.sessions = st.sessions := by
  unfold auto_adjust_lag at h
  simp only at h
  split_ifs at h
  · cases h; rfl
  · cases h; rfl
  · exact send_lag_sessions st _ _ r h
  · exact send_lag_sessions st _ _ r h
  · cases h; rfl

/-- No operation other than `on_session_joined` adds a session to the registry: `accept`,
`send_start_game`, `send_input`, `send_lag`, `send_message` and `on_tick` leave the ids of
the registry as they are, and `on_session_quit` removes at most one. -/
theorem operations_add_no_session (st : server) :
    registry_ids (accept st).1 = registry_ids st ∧
    (∀ id : Nat, ∀ i ∈ registry_ids (on_session_quit st id).1, i ∈ registry_ids st) ∧
    registry_ids (send_start_game st).1 = registry_ids st ∧
    (∀ id port input : Nat, registry_ids (send_input st id port input).1 = registry_ids st) ∧
    (∀ (id : Int) (v : Nat) (r : server × outbox), send_lag st id v = some r →
      registry_ids r.1 = registry_ids st) ∧
    (∀ (id : Int) (text : String), registry_ids (send_message st id text).1 = registry_ids st) ∧
    (∀ (error : Bool) (time : Nat → Nat) (r : server × outbox), on_tick st error time = some r →
      registry_ids r.1 = registry_ids st) := by
  refine ⟨rfl, ?_, ?_, fun _ _ _ => rfl, ?_, fun _ _ => rfl, ?_⟩
  · intro id i hi
    unfold on_session_quit at hi
    cases hf : st.sessions.find? (fun s => decide (s.id = id)) with
    | none => simpa [hf] using hi
    | some s =>
      simp only [hf] at hi
      split_ifs at hi
      · simpa [registry_ids, close, List.map_map, Function.comp_def] using hi
      · simp only [registry_ids, List.mem_map, List.mem_filter] at hi ⊢
        obtain ⟨a, ⟨ha, _⟩, rfl⟩ := hi
        exact ⟨a, ha, rfl⟩
  · unfold send_start_game
    split_ifs <;> rfl
  · intro id v r h
    unfold registry_ids
    rw [send_lag_sessions st id v r h]
  · intro error time r h
    unfold on_tick at h
    unfold registry_ids
    split_ifs at h with h1 h2
    · cases h; rfl
    · cases ha : auto_adjust_lag st with
      | none => simp [ha] at h
      | some q =>
        simp only [ha, Option.some.injEq] at h
        rw [← h]
        simp only
        rw [auto_adjust_lag_sessions st q ha]
    · cases h; rfl


end Netplay
